import Mathlib

/-!
# gameblocks: buffer encoder, transform composition, scene binding, particle emitter

A shallow embedding of the parts of `util.go`, `util_test.go`, `scene.go` and
`particle.go` that the verified properties talk about.

Conventions of the embedding:

* a Go `int` is an `Int`; a result of `int` arithmetic that can leave the range of a 64-bit
  machine word (a row index times a dimension, the eviction count of the emitter) is passed
  through `wrapInt`, the two's-complement wrap;
* a `float32` is represented by its IEEE-754 bit pattern, a `Nat` (the low 32 bits count),
  a `uint8` by a `Nat` (the low 8 bits count), a byte by a `Nat`;
* a run-time panic is the result `none`.
-/

namespace Gameblocks

/-! ## Go integers and slices -/

/-- The value a 64-bit Go `int` holds after an arithmetic result `x`. -/
def wrapInt (x : Int) : Int := (x + 2 ^ 63) % 2 ^ 64 - 2 ^ 63

/-- The Go slice header over its backing array: `elems` are the elements from the slice's
start up to its capacity, `len` is its length. A capacity is a Go `int`. -/
structure GoSlice where
  elems : List Nat
  len : Nat
  len_le : len ≤ elems.length
  cap_lt : elems.length < 2 ^ 63

/-- The capacity `cap(s)`. -/
def GoSlice.cap (s : GoSlice) : Nat := s.elems.length

/-- The visible elements `s[0], ..., s[len(s)-1]`. -/
def GoSlice.toList (s : GoSlice) : List Nat := s.elems.take s.len

/-- The slice expression `s[i:j]`: it panics unless `0 <= i <= j <= cap(s)`, and otherwise
holds the `j - i` elements from index `i` on. -/
def GoSlice.slice (s : GoSlice) (i j : Int) : Option (List Nat) :=
  if 0 ≤ i ∧ i ≤ j ∧ j ≤ (s.cap : Int) then
    some ((s.elems.drop i.toNat).take (j - i).toNat)
  else
    none

/-- The slice literal `[]T{x1, ..., xn}`: length and capacity are both `n`. -/
def GoSlice.lit (xs : List Nat) (h : xs.length < 2 ^ 63) : GoSlice :=
  ⟨xs, xs.length, le_refl _, h⟩

/-! ## util.go: DimSlicer -/

/-- The dynamic values `NewDimSlice` and `binary.Write` switch on. -/
inductive GoValue
  | float32s (s : GoSlice)
  | uint8s (s : GoSlice)
  | other

/-- The two implementations of the interface `DimSlicer`. -/
inductive DimSlicer
  | dimslice_float32 (dim : Int) (slice : GoSlice)
  | dimslice_uint8 (dim : Int) (slice : GoSlice)

/-- The data `Slice` hands to `binary.Write`: a `[]float32` or a `[]uint8`. -/
inductive SliceData
  | float32s (xs : List Nat)
  | uint8s (xs : List Nat)

/-- `NewDimSlice(dim, slice)`: a type switch on `slice`, a panic for any other type. -/
def NewDimSlice (dim : Int) (slice : GoValue) : Option DimSlicer :=
  match slice with
  | GoValue.float32s s => some (DimSlicer.dimslice_float32 dim s)
  | GoValue.uint8s s => some (DimSlicer.dimslice_uint8 dim s)
  | GoValue.other => none

/-- The method `Dim()`. -/
def DimSlicer.Dim : DimSlicer → Int
  | dimslice_float32 dim _ => dim
  | dimslice_uint8 dim _ => dim

/-- The backing slice of a source. -/
def DimSlicer.backing : DimSlicer → GoSlice
  | dimslice_float32 _ s => s
  | dimslice_uint8 _ s => s

/-- The method `Slice(i, j)`, which is `o.slice[i:j]`. -/
def DimSlicer.Slice : DimSlicer → Int → Int → Option SliceData
  | dimslice_float32 _ s, i, j => (s.slice i j).map SliceData.float32s
  | dimslice_uint8 _ s, i, j => (s.slice i j).map SliceData.uint8s

/-- Bytes one element of a source takes in the encoding: 4 for `float32`, 1 for `uint8`. -/
def DimSlicer.elementSize : DimSlicer → Nat
  | dimslice_float32 _ _ => 4
  | dimslice_uint8 _ _ => 1

/-! ## encoding/binary, little endian -/

/-- The four bytes `binary.LittleEndian` writes for a `float32` with bit pattern `x`
(`math.Float32bits`), least significant first. -/
def putFloat32 (x : Nat) : List Nat :=
  [x % 256, x / 256 % 256, x / 65536 % 256, x / 16777216 % 256]

/-- The byte written for a `uint8`. -/
def putUint8 (x : Nat) : List Nat := [x % 256]

/-- The bytes `binary.Write(&buf, binary.LittleEndian, data)` appends for a slice of
fixed-size values; writing to a `bytes.Buffer` returns no error. -/
def binaryWrite : SliceData → List Nat
  | SliceData.float32s xs => xs.flatMap putFloat32
  | SliceData.uint8s xs => xs.flatMap putUint8

/-! ## util.go: EncodeObjects -/

/-- The inner loop `for _, obj := range objects` of `EncodeObjects` at row `i`, appending
to `buf`. -/
def encodeRow (i : Int) : List DimSlicer → List Nat → Option (List Nat)
  | [], buf => some buf
  | obj :: rest, buf =>
    match obj.Slice (wrapInt (i * obj.Dim)) (wrapInt ((i + 1) * obj.Dim)) with
    | none => none
    | some data => encodeRow i rest (buf ++ binaryWrite data)

/-- The outer loop `for i := offset; i < length; i++`, with `n` iterations left to run
from row `i`. -/
def encodeRows (objects : List DimSlicer) : Nat → Int → List Nat → Option (List Nat)
  | 0, _, buf => some buf
  | n + 1, i, buf =>
    match encodeRow i objects buf with
    | none => none
    | some buf1 => encodeRows objects n (i + 1) buf1

/-- `EncodeObjects(offset, length, objects...)`: the loop body runs for
`i = offset, ..., length - 1`, that is `length - offset` times (no time when
`length <= offset`); `none` is a panic of a slice expression. -/
def EncodeObjects (offset length : Int) (objects : List DimSlicer) : Option (List Nat) :=
  encodeRows objects (length - offset).toNat offset []

/-! ## util_test.go: DecodeObjects -/

/-- `DecodeObjects(b)`: each iteration reads four bytes from the reader, which stands at
offset `i`, and appends the `float32` with that little-endian bit pattern; when fewer than
four bytes are left `binary.Read` fails and the values read so far come back with the
error (`false` in the second component). The first argument is the unread rest of `b`. -/
def decodeLoop : List Nat → List Nat → List Nat × Bool
  | [], r => (r, true)
  | b0 :: b1 :: b2 :: b3 :: rest, r =>
    decodeLoop rest (r ++ [b0 + 256 * b1 + 65536 * b2 + 16777216 * b3])
  | _ :: _, r => (r, false)

/-- `DecodeObjects(b)`: the decoded values and whether `err == nil`. -/
def DecodeObjects (b : List Nat) : List Nat × Bool := decodeLoop b []

/-! ## The layout the encoder is specified to produce -/

/-- The encoding of one element of a source: the four little-endian bytes of a `float32`
bit pattern, or the byte of a `uint8`. -/
def DimSlicer.encodeElem : DimSlicer → Nat → List Nat
  | dimslice_float32 _ _, x => putFloat32 x
  | dimslice_uint8 _ _, x => putUint8 x

/-- The elements `s[i*dim], ..., s[(i+1)*dim - 1]` of a source, read by index. -/
def DimSlicer.rowElems (o : DimSlicer) (i : Nat) : List Nat :=
  (List.range o.Dim.toNat).map (fun k => o.backing.elems.getD (i * o.Dim.toNat + k) 0)

/-- The row-`i` block: for each source in argument order, the encodings of its row-`i`
elements. -/
def rowBlock (objects : List DimSlicer) (i : Nat) : List Nat :=
  objects.flatMap (fun o => (o.rowElems i).flatMap o.encodeElem)

/-- The interleaved layout: the row blocks for `i = offset, ..., length - 1` in order. -/
def interleaved (offset length : Nat) (objects : List DimSlicer) : List Nat :=
  (List.range' offset (length - offset)).flatMap (rowBlock objects)

/-- Bytes of one encoded row: the sum over the sources of `dim * elementSize`. -/
def rowSize (objects : List DimSlicer) : Int :=
  (objects.map (fun o => o.Dim * (o.elementSize : Int))).sum

/-! ## util.go: MultiMul, scene.go: Node.Transform

The matrix type `mgl.Mat4` and its operations come from the library `mathgl`: `M` stands for
`mgl.Mat4`, `*` for `Mul4`, `1` for `mgl.Ident4()` and `0` for the zero value of the type. A
`*mgl.Mat4` is an `Option M`, `none` being `nil`. -/

/-- One pass of the loop of `MultiMul` over the state `(r, ok)`. -/
def MultiMul.step {M : Type} [Mul M] (st : M × Bool) (m : Option M) : M × Bool :=
  match m with
  | none => st
  | some m => if !st.2 then (m, true) else (st.1 * m, st.2)

/-- `MultiMul(matrices...)`: `r` starts as the zero value and `ok` as `false`; after the
loop, `r` is returned when `ok` holds and `mgl.Ident4()` otherwise. -/
def MultiMul {M : Type} [Mul M] [One M] [Zero M] (matrices : List (Option M)) : M :=
  let st := matrices.foldl MultiMul.step ((0 : M), false)
  if st.2 then st.1 else 1

/-- The fields of `Node` that transform composition and shader binding read: the optional
local transform and the shader (`S` is the type of non-nil `loader.Shader` values). -/
structure Node (S M : Type) where
  transform : Option M
  shader : S

/-- The method `Node.Shader()`. -/
def Node.Shader {S M : Type} (node : Node S M) : S := node.shader

/-- The method `Node.Transform(parent)`. -/
def Node.Transform {S M : Type} [Mul M] [One M] [Zero M] (node : Node S M) (parent : Option M) :
    M :=
  MultiMul [node.transform, parent]

/-! ## scene.go: FrameContext and sliceScene.Draw

A draw is described by the sequence of calls it makes on the shader and on the GL context;
the values uploaded are left out. -/

/-- The calls a frame makes: `shader.Use()`, the entry of `FrameContext.bindShader`, an
upload `glctx.UniformMatrix4fv(shader.Uniform(name), ...)`, and the draw of a node's shape
(`node.Shape.Draw(ctx)`), which makes no call of the first three kinds. -/
inductive Call (S : Type)
  | Use (shader : S)
  | bindShader (shader : S)
  | UniformMatrix4fv (shader : S) (name : String)
  | ShapeDraw (shader : S)
  deriving DecidableEq

/-- The unexported fields of `FrameContext`: the map `shaderCache` (`none` is the nil map,
otherwise its keys) and `activeShader` (`none` is the nil interface). -/
structure FrameContext (S : Type) where
  shaderCache : Option (List S)
  activeShader : Option S

/-- The frame context `FrameContext{GL: ..., Camera: ...}` a frame starts from. -/
def FrameContext.fresh {S : Type} : FrameContext S := ⟨none, none⟩

/-- The fields of `DrawContext` a node reads besides the GL context and the camera. -/
structure DrawContext (S M : Type) where
  Shader : S
  Transform : Option M

/-- `FrameContext.bindShader(shader)`: the three camera uniforms, in the order of the
source. -/
def FrameContext.bindShader {S : Type} (shader : S) : List (Call S) :=
  [Call.bindShader shader, Call.UniformMatrix4fv shader "cameraPos",
    Call.UniformMatrix4fv shader "view", Call.UniformMatrix4fv shader "projection"]

/-- `FrameContext.DrawContext(shader)`: the frame context after the call, the calls made and
the draw context returned (its `Transform` is still nil). -/
def FrameContext.DrawContext {S M : Type} [DecidableEq S] (ctx : FrameContext S) (shader : S) :
    FrameContext S × List (Call S) × Gameblocks.DrawContext S M :=
  let r : Gameblocks.DrawContext S M := ⟨shader, none⟩
  let st1 : FrameContext S × List (Call S) :=
    if ctx.activeShader ≠ some shader then
      ({ ctx with activeShader := some shader }, [Call.Use shader])
    else (ctx, [])
  match st1.1.shaderCache with
  | none =>
    ({ st1.1 with shaderCache := some [shader] }, st1.2 ++ FrameContext.bindShader shader, r)
  | some cache =>
    if shader ∈ cache then (st1.1, st1.2, r)
    else (st1.1, st1.2 ++ FrameContext.bindShader shader, r)

/-- `Node.Draw(ctx)`: the uploads of the model and normal matrices to the shader of the draw
context, then the draw of the shape. -/
def Node.Draw {S M : Type} (_node : Node S M) (ctx : DrawContext S M) : List (Call S) :=
  [Call.UniformMatrix4fv ctx.Shader "model", Call.UniformMatrix4fv ctx.Shader "normalMatrix",
    Call.ShapeDraw ctx.Shader]

/-- The scene `sliceScene`, here of plain nodes. -/
structure sliceScene (S M : Type) where
  nodes : List (Node S M)
  transform : Option M

/-- `NewScene()`. -/
def NewScene {S M : Type} : sliceScene S M := ⟨[], none⟩

/-- `sliceScene.Add(item)`. -/
def sliceScene.Add {S M : Type} (scene : sliceScene S M) (item : Node S M) : sliceScene S M :=
  { scene with nodes := scene.nodes ++ [item] }

/-- One pass of the loop of `sliceScene.Draw`: the frame context and the calls so far. -/
def sliceScene.drawNode {S M : Type} [DecidableEq S] (transform : Option M)
    (st : FrameContext S × List (Call S)) (node : Node S M) : FrameContext S × List (Call S) :=
  let res := st.1.DrawContext (M := M) node.Shader
  let ctx : DrawContext S M := { res.2.2 with Transform := transform }
  (res.1, st.2 ++ res.2.1 ++ node.Draw ctx)

/-- `sliceScene.Draw(frame)`: the calls made, in order. The frame context is passed by value,
so the caller's copy is left as it was. -/
def sliceScene.Draw {S M : Type} [DecidableEq S] (scene : sliceScene S M)
    (frame : FrameContext S) : List (Call S) :=
  (scene.nodes.foldl (sliceScene.drawNode scene.transform) (frame, [])).2

/-- Number of calls of `shader.Use()` in a sequence of calls. -/
def useCount {S : Type} [DecidableEq S] (shader : S) (calls : List (Call S)) : Nat :=
  calls.count (Call.Use shader)

/-- Number of calls of `bindShader(shader)` in a sequence of calls. -/
def bindCount {S : Type} [DecidableEq S] (shader : S) (calls : List (Call S)) : Nat :=
  calls.count (Call.bindShader shader)

/-- Number of uploads of the uniform `name` of `shader` in a sequence of calls. -/
def uploadCount {S : Type} [DecidableEq S] (shader : S) (name : String)
    (calls : List (Call S)) : Nat :=
  calls.count (Call.UniformMatrix4fv shader name)

/-! ## particle.go

The emitter computes on `float32` values. Its arithmetic is kept abstract: `F` is the type of
`float32` values and `Float32Ops F` the operations and constants the emitter uses, so that
what is proved of the emitter holds for every behaviour of these operations. -/

/-- The `float32` operations and constants of `particle.go`: `+`, `-`, `*`, the conversion
`int(x)`, the conversion `float32(d.Seconds())` of a duration of `d` nanoseconds, and the
constants `0.5`, `0`, `particleForce = 0.09` and the component `-0.2` of `gravityForce`. -/
class Float32Ops (F : Type) extends Add F, Sub F, Mul F where
  toInt : F → Int
  ofSeconds : Int → F
  half : F
  zero : F
  particleForce : F
  gravityY : F

/-- The type `mgl.Vec3`. -/
structure Vec3 (F : Type) where
  x : F
  y : F
  z : F

/-- The method `Vec3.Add` of `mathgl`: the component-wise sum. -/
def Vec3.Add {F : Type} [Add F] (v1 v2 : Vec3 F) : Vec3 F :=
  ⟨v1.x + v2.x, v1.y + v2.y, v1.z + v2.z⟩

/-- The method `Vec3.Mul` of `mathgl`: the product with a scalar. -/
def Vec3.Mul {F : Type} [Mul F] (v1 : Vec3 F) (c : F) : Vec3 F :=
  ⟨v1.x * c, v1.y * c, v1.z * c⟩

/-- The type `particle`. -/
structure particle (F : Type) where
  position : Vec3 F
  velocity : Vec3 F

/-- The variable `gravityForce`. -/
def gravityForce {F : Type} [Float32Ops F] : Vec3 F :=
  ⟨Float32Ops.zero, Float32Ops.gravityY, Float32Ops.zero⟩

/-- `RandomParticle(origin, force)`, where `r0`, `r1`, `r2` are the values the three calls of
`rand.Float32()` return, in the order of the calls. -/
def RandomParticle {F : Type} [Float32Ops F] (origin : Vec3 F) (force : F) (r0 r1 r2 : F) :
    particle F :=
  { position := origin
    velocity := ⟨(Float32Ops.half - r0) * force, r1 * force, (Float32Ops.half - r2) * force⟩ }

/-- The method `particle.Tick(force)`. -/
def particle.Tick {F : Type} [Add F] (p : particle F) (force : Vec3 F) : particle F :=
  let velocity := force.Add p.velocity
  { position := p.position.Add velocity, velocity := velocity }

/-- The state of a `particleEmitter` (the GL context and buffer left out). An emitter is made
by `ParticleEmitter` only, so its `num` is a Go `int` that `make` accepted as a capacity. -/
structure particleEmitter (F : Type) where
  origin : Vec3 F
  rate : F
  particles : List (particle F)
  num : Int
  num_range : 0 ≤ num ∧ num < 2 ^ 63

/-- `ParticleEmitter(glctx, origin, num, rate)`: `make([]*particle, 0, num)` panics when
`num` is negative (and `num` is a Go `int`). -/
def ParticleEmitter {F : Type} (origin : Vec3 F) (num : Int) (rate : F) :
    Option (particleEmitter F) :=
  if h : 0 ≤ num ∧ num < 2 ^ 63 then
    some { origin := origin, rate := rate, particles := [], num := num, num_range := h }
  else none

/-- The method `Len()`. -/
def particleEmitter.Len {F : Type} (emitter : particleEmitter F) : Nat :=
  emitter.particles.length

/-- The method `MoveTo(pos)`. -/
def particleEmitter.MoveTo {F : Type} (emitter : particleEmitter F) (pos : Vec3 F) :
    particleEmitter F :=
  { emitter with origin := pos }

/-- The spawn count `n := int(emitter.rate * t * rand.Float32())` of a `Tick`, a Go `int`;
`r` is the value `rand.Float32()` returns. -/
def particleEmitter.spawnCount {F : Type} [Float32Ops F] (emitter : particleEmitter F)
    (interval : Int) (r : F) : Int :=
  wrapInt (Float32Ops.toInt (emitter.rate * Float32Ops.ofSeconds interval * r))

/-- The particles the loop `for i := 0; i <= n; i++` appends: `n + 1` of them when `n` is not
negative, none otherwise; the particle of pass `i` takes the draws `3i + 1`, `3i + 2`,
`3i + 3` of the tick. -/
def particleEmitter.spawned {F : Type} [Float32Ops F] (emitter : particleEmitter F) (n : Int)
    (rand : Nat → F) : List (particle F) :=
  (List.range (n + 1).toNat).map (fun i =>
    RandomParticle emitter.origin Float32Ops.particleForce
      (rand (3 * i + 1)) (rand (3 * i + 2)) (rand (3 * i + 3)))

/-- The method `Tick(interval)`; `rand k` is the value the `k`-th call of `rand.Float32()`
within the tick returns and `none` means that the tick does not complete.

* `emitter.particles[extra:]` panics when `extra` exceeds the length;
* a slice holds fewer than `2^63` elements, so the spawn loop does not complete when it has
  to append more;
* `emitter.Buffer()` uploads the bytes of the particles and leaves the emitter as it is. -/
def particleEmitter.Tick {F : Type} [Float32Ops F] (emitter : particleEmitter F)
    (interval : Int) (rand : Nat → F) : Option (particleEmitter F) :=
  let t : F := Float32Ops.ofSeconds interval
  let n : Int := emitter.spawnCount interval (rand 0)
  let extra : Int := wrapInt ((emitter.particles.length : Int) + 1 + n - emitter.num)
  let popped : Option (List (particle F)) :=
    if extra > 0 then
      if extra ≤ (emitter.particles.length : Int) then
        some (emitter.particles.drop extra.toNat)
      else none
    else some emitter.particles
  match popped with
  | none => none
  | some kept =>
    if kept.length + (n + 1).toNat < 2 ^ 63 then
      let f : Vec3 F := gravityForce.Mul t
      some { emitter with
        particles := (kept ++ emitter.spawned n rand).map (fun p => p.Tick f) }
    else none

/-- A sequence of ticks, each with its interval and its random draws; `none` when one of
them does not complete. -/
def particleEmitter.runTicks {F : Type} [Float32Ops F] (emitter : particleEmitter F) :
    List (Int × (Nat → F)) → Option (particleEmitter F)
  | [] => some emitter
  | tick :: rest =>
    match emitter.Tick tick.1 tick.2 with
    | none => none
    | some next => next.runTicks rest

/-- Exact rational arithmetic, which agrees with `float32` arithmetic wherever the latter
is exact: `int(x)` truncates towards zero, a duration of `d` nanoseconds is `d / 10^9`
seconds. -/
instance ratFloat32Ops : Float32Ops ℚ where
  toInt q := Int.tdiv q.num q.den
  ofSeconds d := (d : ℚ) / 1000000000
  half := 1 / 2
  zero := 0
  particleForce := 9 / 100
  gravityY := -(1 / 5)

/-! ## scene.go: the nodes a draw visits -/

/-- One pass of the loop of `sliceScene.Draw`, recording the call `node.Draw(ctx)` itself: the
frame context after `frame.DrawContext(node.Shader())`, and the node with the draw context it
is drawn with. -/
def sliceScene.visitNode {S M : Type} [DecidableEq S] (transform : Option M)
    (st : FrameContext S × List (Node S M × DrawContext S M)) (node : Node S M) :
    FrameContext S × List (Node S M × DrawContext S M) :=
  let res := st.1.DrawContext (M := M) node.Shader
  let ctx : DrawContext S M := { res.2.2 with Transform := transform }
  (res.1, st.2 ++ [(node, ctx)])

/-- The calls `node.Draw(ctx)` that `sliceScene.Draw(frame)` makes, in order. -/
def sliceScene.nodeDraws {S M : Type} [DecidableEq S] (scene : sliceScene S M)
    (frame : FrameContext S) : List (Node S M × DrawContext S M) :=
  (scene.nodes.foldl (sliceScene.visitNode scene.transform) (frame, [])).2

/-- Whether a call is the draw of a node's shape. -/
def Call.isShapeDraw {S : Type} : Call S → Bool
  | Call.ShapeDraw _ => true
  | _ => false

/-! ## shape.go -/

/-- The constant `vertexDim`. -/
def vertexDim : Int := 3

/-- The constant `textureDim`. -/
def textureDim : Int := 2

/-- The constant `normalDim`. -/
def normalDim : Int := 3

/-- The constant `vecSize`. -/
def vecSize : Int := 4

/-- The calls on the GL context that the draw and buffer methods make; a buffer target is
named by its constant, a vertex attribute by the name given to `shader.Attrib`. -/
inductive GLCall
  | BindBuffer (target : String)
  | EnableVertexAttribArray (attrib : String)
  | VertexAttribPointer (attrib : String) (size stride offset : Int)
  | DrawElements (count : Int)
  | DrawArrays (first count : Int)
  | DisableVertexAttribArray (attrib : String)
  | BufferSubData (offset : Int) (data : List Nat)
  deriving DecidableEq

/-- The attribute arrays of a `StaticShape` (`float32` bit patterns for `vertices`, `textures`
and `normals`, `uint8` for `indices`); the GL handles are left out. -/
structure StaticShape where
  vertices : GoSlice
  textures : GoSlice
  normals : GoSlice
  indices : GoSlice

/-- The method `Len()`: `len(s.vertices) / vertexDim`, an integer division. -/
def StaticShape.Len (s : StaticShape) : Int :=
  Int.tdiv (s.vertices.len : Int) vertexDim

/-- The method `Stride()`. -/
def StaticShape.Stride (shape : StaticShape) : Int :=
  let r := vertexDim
  let r := if shape.textures.len > 0 then r + textureDim else r
  let r := if shape.normals.len > 0 then r + normalDim else r
  r * vecSize

/-- The slice `objects` that `BytesOffset` builds; `none` if `NewDimSlice` panics. -/
def StaticShape.objects (shape : StaticShape) : Option (List DimSlicer) :=
  match NewDimSlice vertexDim (GoValue.float32s shape.vertices) with
  | none => none
  | some v =>
    let objects := [v]
    let withTextures : Option (List DimSlicer) :=
      if shape.textures.len > 0 then
        (NewDimSlice textureDim (GoValue.float32s shape.textures)).map (fun t => objects ++ [t])
      else some objects
    match withTextures with
    | none => none
    | some objects =>
      if shape.normals.len > 0 then
        (NewDimSlice normalDim (GoValue.float32s shape.normals)).map (fun n => objects ++ [n])
      else some objects

/-- The method `BytesOffset(n)`. -/
def StaticShape.BytesOffset (shape : StaticShape) (n : Int) : Option (List Nat) :=
  match shape.objects with
  | none => none
  | some objects =>
    let length := Int.tdiv (shape.vertices.len : Int) vertexDim
    EncodeObjects n length objects

/-- The method `Bytes()`. -/
def StaticShape.Bytes (shape : StaticShape) : Option (List Nat) :=
  shape.BytesOffset 0

/-- The method `StaticShape.Draw(ctx)`: the calls it makes on the GL context, in order. -/
def StaticShape.Draw (shape : StaticShape) : List GLCall :=
  let stride := shape.Stride
  [GLCall.BindBuffer "ARRAY_BUFFER", GLCall.EnableVertexAttribArray "vertCoord",
    GLCall.VertexAttribPointer "vertCoord" vertexDim stride 0]
  ++ (if shape.normals.len > 0 then
      [GLCall.EnableVertexAttribArray "vertNormal",
        GLCall.VertexAttribPointer "vertNormal" normalDim stride (vertexDim * vecSize)]
    else [])
  ++ (if shape.indices.len > 0 then
      [GLCall.BindBuffer "ELEMENT_ARRAY_BUFFER", GLCall.DrawElements (shape.indices.len : Int)]
    else [GLCall.DrawArrays 0 shape.Len])
  ++ [GLCall.DisableVertexAttribArray "vertCoord"]
  ++ (if shape.normals.len > 0 then [GLCall.DisableVertexAttribArray "vertNormal"] else [])

/-- The method `DynamicShape.Buffer(offset)`: the calls it makes on the GL context; `none` if
`BytesOffset` panics. -/
def DynamicShape.Buffer (shape : StaticShape) (offset : Int) : Option (List GLCall) :=
  match shape.BytesOffset offset with
  | none => none
  | some data =>
    if data.length = 0 then some [GLCall.BindBuffer "ARRAY_BUFFER"]
    else some [GLCall.BindBuffer "ARRAY_BUFFER",
      GLCall.BufferSubData (wrapInt (offset * shape.Stride)) data]

/-- The byte offset, inside an encoded row, of the source at position `k` of `objects`: the
sum of `dim * elementSize` over the sources before it. -/
def attribOffset (objects : List DimSlicer) (k : Nat) : Int :=
  rowSize (objects.take k)

/-! ## particle.go: the vertices of the particles and their draw -/

/-- The further `float32` operations of `particle.go`: `Vec3.Normalize` of `mathgl`, the
constants `0.1` and `0.05`, and the bit pattern `math.Float32bits(x)` that `binary.Write`
encodes. -/
class VertexOps (F : Type) extends Float32Ops F where
  normalize : Vec3 F → Vec3 F
  tenth : F
  twentieth : F
  bits : F → Nat

/-- The constant `particleLen = 9 * 3`. -/
def particleLen : Int := 9 * 3

/-- The method `particle.Vertices()`. -/
def particle.Vertices {F : Type} [VertexOps F] (p : particle F) : List F :=
  let v := VertexOps.normalize p.velocity
  [p.position.x + v.x * VertexOps.tenth,
    p.position.y + v.y * VertexOps.tenth,
    p.position.z + v.z * VertexOps.tenth,
    p.position.x - v.x * VertexOps.twentieth,
    p.position.y - v.y * VertexOps.twentieth,
    p.position.z + v.z * VertexOps.twentieth,
    p.position.x + v.x * VertexOps.twentieth,
    p.position.y - v.y * VertexOps.twentieth,
    p.position.z + v.z * VertexOps.twentieth]

/-- The method `particleEmitter.Bytes()`: for each particle in order, `binary.Write` of its
vertices. -/
def particleEmitter.Bytes {F : Type} [VertexOps F] (emitter : particleEmitter F) : List Nat :=
  emitter.particles.flatMap (fun p =>
    binaryWrite (SliceData.float32s (p.Vertices.map VertexOps.bits)))

/-- The method `particleEmitter.Stride()`. -/
def particleEmitter.Stride {F : Type} (_emitter : particleEmitter F) : Int :=
  vecSize * vertexDim

/-- The method `particleEmitter.Draw(ctx)`: the calls it makes on the GL context. -/
def particleEmitter.Draw {F : Type} (emitter : particleEmitter F) : List GLCall :=
  [GLCall.BindBuffer "ARRAY_BUFFER", GLCall.EnableVertexAttribArray "vertCoord",
    GLCall.VertexAttribPointer "vertCoord" vertexDim emitter.Stride 0,
    GLCall.DrawArrays 0 (Int.tdiv (wrapInt ((emitter.Len : Int) * particleLen)) vertexDim),
    GLCall.DisableVertexAttribArray "vertCoord"]

/-! ## camera/camera.go: the Euler camera

The Euler camera computes on `float64` values (yaw and pitch) and `float32` values (the
vectors). Their operations are kept abstract: `D` is the type of `float64` values, `F` the
type of `float32` values and `EulerOps D F` the operations the camera uses, so that what is
proved of the camera holds for every behaviour of these operations, the one of IEEE-754
arithmetic with its rounding, its infinities and its NaN included. The projection matrix has
the type `P`. -/

/-- The floating-point operations and constants of the Euler camera: on `float64` the sum,
the product, the comparisons `x > y`, `x < y` and `x <= y`, the test for NaN, `math.Cos`,
`math.Sin` and the constants `halfPi = math.Pi / 2.0` and `-halfPi`; the conversions
`float64(x)` and `float32(x)`; on `float32` the sum, the difference, the product, the
constants `0` and `1`, and `Vec3.Normalize` of `mathgl`. -/
structure EulerOps (D F : Type) where
  add : D → D → D
  mul : D → D → D
  gt : D → D → Bool
  lt : D → D → Bool
  le : D → D → Bool
  isNaN : D → Bool
  cos : D → D
  sin : D → D
  halfPi : D
  negHalfPi : D
  toFloat64 : F → D
  toFloat32 : D → F
  addF : F → F → F
  subF : F → F → F
  mulF : F → F → F
  zeroF : F
  oneF : F
  normalize : Vec3 F → Vec3 F

/-- The facts of IEEE-754 comparison that the interval of the pitch rests on: a comparison
with a NaN operand is false; on operands that are not NaN, `x <= y` holds exactly when
`x > y` does not, and `y <= x` exactly when `x < y` does not; `x <= x` holds when `x` is not
NaN; the constants `halfPi` and `-halfPi` are not NaN and `-halfPi <= halfPi`. -/
structure EulerOps.IEEE {D F : Type} (ops : EulerOps D F) : Prop where
  gt_nan : ∀ x y, ops.isNaN x = true ∨ ops.isNaN y = true → ops.gt x y = false
  lt_nan : ∀ x y, ops.isNaN x = true ∨ ops.isNaN y = true → ops.lt x y = false
  le_nan : ∀ x y, ops.isNaN x = true ∨ ops.isNaN y = true → ops.le x y = false
  le_not_gt : ∀ x y, ops.isNaN x = false → ops.isNaN y = false → ops.le x y = !ops.gt x y
  ge_not_lt : ∀ x y, ops.isNaN x = false → ops.isNaN y = false → ops.le y x = !ops.lt x y
  le_self : ∀ x, ops.isNaN x = false → ops.le x x = true
  halfPi_num : ops.isNaN ops.halfPi = false
  negHalfPi_num : ops.isNaN ops.negHalfPi = false
  neg_le_halfPi : ops.le ops.negHalfPi ops.halfPi = true

/-- The method `Vec3.Add` of `mathgl` on `float32` vectors. -/
def EulerOps.vadd {D F : Type} (ops : EulerOps D F) (v1 v2 : Vec3 F) : Vec3 F :=
  ⟨ops.addF v1.x v2.x, ops.addF v1.y v2.y, ops.addF v1.z v2.z⟩

/-- The method `Vec3.Mul` of `mathgl` on `float32` vectors. -/
def EulerOps.vmul {D F : Type} (ops : EulerOps D F) (v1 : Vec3 F) (c : F) : Vec3 F :=
  ⟨ops.mulF v1.x c, ops.mulF v1.y c, ops.mulF v1.z c⟩

/-- The method `Vec3.Cross` of `mathgl` on `float32` vectors. -/
def EulerOps.cross {D F : Type} (ops : EulerOps D F) (v1 v2 : Vec3 F) : Vec3 F :=
  ⟨ops.subF (ops.mulF v1.y v2.z) (ops.mulF v1.z v2.y),
    ops.subF (ops.mulF v1.z v2.x) (ops.mulF v1.x v2.z),
    ops.subF (ops.mulF v1.x v2.y) (ops.mulF v1.y v2.x)⟩

/-- The variable `AxisUp` as a `float32` vector. -/
def EulerOps.axisUp {D F : Type} (ops : EulerOps D F) : Vec3 F :=
  ⟨ops.zeroF, ops.oneF, ops.zeroF⟩

/-- The type `EulerCamera`. -/
structure EulerCamera (D F P : Type) where
  projection : P
  eye : Vec3 F
  yaw : D
  pitch : D
  center : Vec3 F
  up : Vec3 F
  right : Vec3 F

/-- The method `EulerCamera.updateVectors()`. -/
def EulerCamera.updateVectors {D F P : Type} (ops : EulerOps D F) (c : EulerCamera D F P) :
    EulerCamera D F P :=
  let center := ops.normalize
    ⟨ops.toFloat32 (ops.mul (ops.cos c.pitch) (ops.cos c.yaw)),
      ops.toFloat32 (ops.sin c.pitch),
      ops.toFloat32 (ops.mul (ops.cos c.pitch) (ops.sin c.yaw))⟩
  let right := ops.normalize (ops.cross center ops.axisUp)
  { c with center := center, right := right, up := ops.cross right center }

/-- The method `EulerCamera.Rotate(delta)`; `delta` is `{pitch, yaw, roll}`. -/
def EulerCamera.Rotate {D F P : Type} (ops : EulerOps D F) (c : EulerCamera D F P)
    (delta : Vec3 F) : EulerCamera D F P :=
  let yaw := ops.add c.yaw (ops.toFloat64 delta.y)
  let pitch := ops.add c.pitch (ops.toFloat64 delta.x)
  let pitch :=
    if ops.gt pitch ops.halfPi = true then ops.halfPi
    else if ops.lt pitch ops.negHalfPi = true then ops.negHalfPi
    else pitch
  EulerCamera.updateVectors ops { c with yaw := yaw, pitch := pitch }

/-- A sequence of `Rotate` calls, one for each delta in order. -/
def EulerCamera.rotates {D F P : Type} (ops : EulerOps D F) (c : EulerCamera D F P)
    (deltas : List (Vec3 F)) : EulerCamera D F P :=
  deltas.foldl (EulerCamera.Rotate ops) c

/-- The method `EulerCamera.Move(delta)`. -/
def EulerCamera.Move {D F P : Type} (ops : EulerOps D F) (c : EulerCamera D F P)
    (delta : Vec3 F) : EulerCamera D F P :=
  let eye := ops.vadd c.eye (ops.vmul c.right delta.x)
  let eye := ops.vadd eye (ops.vmul c.up delta.y)
  let eye := ops.vadd eye (ops.vmul c.center delta.z)
  { c with eye := eye }

/-- The comparison `x > y` of `ratOps`. -/
def ratGt : Option ℚ → Option ℚ → Bool
  | some x, some y => decide (x > y)
  | _, _ => false

/-- The comparison `x < y` of `ratOps`. -/
def ratLt : Option ℚ → Option ℚ → Bool
  | some x, some y => decide (x < y)
  | _, _ => false

/-- The comparison `x <= y` of `ratOps`. -/
def ratLe : Option ℚ → Option ℚ → Bool
  | some x, some y => decide (x ≤ y)
  | _, _ => false

/-- An operation of `ratOps` on two operands: NaN when an operand is NaN. -/
def ratOp (f : ℚ → ℚ → ℚ) : Option ℚ → Option ℚ → Option ℚ
  | some x, some y => some (f x y)
  | _, _ => none

/-- A small arithmetic with the comparison behaviour of IEEE-754: the rationals, computed
exactly, and one more value `none`, the NaN, which every operation propagates and for which
every comparison is false. `355/226` stands for `halfPi`; the cosine and the sine, which play
no part in yaw and pitch, are replaced by polynomials, and `Normalize` by the identity. -/
def ratOps : EulerOps (Option ℚ) (Option ℚ) where
  add := ratOp (fun x y => x + y)
  mul := ratOp (fun x y => x * y)
  gt := ratGt
  lt := ratLt
  le := ratLe
  isNaN := fun x => x.isNone
  cos := fun x => x.map (fun q => 1 - q * q / 2)
  sin := fun x => x.map (fun q => q - q * q * q / 6)
  halfPi := some (355 / 226)
  negHalfPi := some (-(355 / 226))
  toFloat64 := fun x => x
  toFloat32 := fun x => x
  addF := ratOp (fun x y => x + y)
  subF := ratOp (fun x y => x - y)
  mulF := ratOp (fun x y => x * y)
  zeroF := some 0
  oneF := some 1
  normalize := fun v => v

/-! ## camera/camera.go: the quaternion camera

The quaternion camera is modelled with exact arithmetic: `K` stands for `float32`, a ring,
and the projection matrix has the type `P`. -/

/-- The method `Vec3.Sub` of `mathgl`. -/
def Vec3.Sub {K : Type} [Sub K] (v1 v2 : Vec3 K) : Vec3 K :=
  ⟨v1.x - v2.x, v1.y - v2.y, v1.z - v2.z⟩

/-- The variable `AxisFront`. -/
def AxisFront {K : Type} [Zero K] [One K] : Vec3 K := ⟨0, 0, 1⟩

/-- The variable `AxisUp`. -/
def AxisUp {K : Type} [Zero K] [One K] : Vec3 K := ⟨0, 1, 0⟩

/-- The variable `AxisRight`. -/
def AxisRight {K : Type} [Zero K] [One K] : Vec3 K := ⟨1, 0, 0⟩

/-- The type `QuatCamera`; `Q` stands for `mgl.Quat`. -/
structure QuatCamera (K Q P : Type) where
  projection : P
  position : Vec3 K
  rotation : Q

/-- The method `QuatCamera.Move(delta)`; `rotate` stands for the method `Quat.Rotate` of
`mathgl`. -/
def QuatCamera.Move {K Q P : Type} [Ring K] (rotate : Q → Vec3 K → Vec3 K)
    (c : QuatCamera K Q P) (delta : Vec3 K) : QuatCamera K Q P :=
  { c with position := c.position.Add (rotate c.rotation delta) }

/-- The method `QuatCamera.MoveTo(position)`. -/
def QuatCamera.MoveTo {K Q P : Type} (c : QuatCamera K Q P) (position : Vec3 K) :
    QuatCamera K Q P :=
  { c with position := position }

/-- The method `QuatCamera.Up()`. -/
def QuatCamera.Up {K Q P : Type} [Ring K] (rotate : Q → Vec3 K → Vec3 K)
    (c : QuatCamera K Q P) : Vec3 K :=
  rotate c.rotation AxisUp

/-- The method `QuatCamera.Center()`. -/
def QuatCamera.Center {K Q P : Type} [Ring K] (rotate : Q → Vec3 K → Vec3 K)
    (c : QuatCamera K Q P) : Vec3 K :=
  let axisBack : Vec3 K := (⟨0, 0, 0⟩ : Vec3 K).Sub AxisFront
  rotate c.rotation axisBack

/-- The arguments `eye`, `center`, `up` that `QuatCamera.View()` passes to `mgl.LookAtV`. -/
def QuatCamera.viewArgs {K Q P : Type} [Ring K] (rotate : Q → Vec3 K → Vec3 K)
    (c : QuatCamera K Q P) : Vec3 K × Vec3 K × Vec3 K :=
  (c.position, c.position.Add (c.Center rotate), c.Up rotate)

/-- The sources `BytesOffset` encodes: the vertices, then the texture coordinates when there
are some, then the normals when there are some. -/
def StaticShape.sources (shape : StaticShape) : List DimSlicer :=
  [DimSlicer.dimslice_float32 vertexDim shape.vertices]
  ++ (if shape.textures.len > 0 then [DimSlicer.dimslice_float32 textureDim shape.textures]
    else [])
  ++ (if shape.normals.len > 0 then [DimSlicer.dimslice_float32 normalDim shape.normals]
    else [])

/-! ## util.go: Quad -/

/-- `Quad(a, b)`: the 18 values it returns, in order. -/
def Quad {F : Type} (a b : Vec3 F) : List F :=
  [b.x, b.y, b.z,
    a.x, b.y, a.z,
    a.x, a.y, a.z,
    a.x, a.y, a.z,
    b.x, b.y, b.z,
    b.x, a.y, b.z]

/-- The vertices a sequence of coordinates describes, three values each. -/
def vertexList {F : Type} : List F → List (Vec3 F)
  | x :: y :: z :: rest => ⟨x, y, z⟩ :: vertexList rest
  | _ => []

/-! ## Lemmas on the encoder -/

theorem wrapInt_of_range (x : Int) (h0 : 0 ≤ x) (h1 : x < 2 ^ 63) : wrapInt x = x := by
  unfold wrapInt
  omega

theorem drop_take_eq_map_getD (l : List Nat) (a d : Nat) (h : a + d ≤ l.length) :
    (l.drop a).take d = (List.range d).map (fun k => l.getD (a + k) 0) := by
  apply List.ext_getElem
  · simp; omega
  · intro n h1 h2
    simp at h1 h2
    simp [List.getD_eq_getElem?_getD]
    rw [List.getElem?_eq_getElem (by omega)]
    simp

/-- Inside the backing array, `Slice` at row `i` returns the row's elements and
`binary.Write` appends their encodings. -/
theorem slice_row (o : DimSlicer) (i : Nat) (hd : 0 ≤ o.Dim)
    (hc : ((i : Int) + 1) * o.Dim ≤ (o.backing.cap : Int)) :
    (o.Slice (wrapInt ((i : Int) * o.Dim)) (wrapInt (((i : Int) + 1) * o.Dim))).map binaryWrite
      = some ((o.rowElems i).flatMap o.encodeElem) := by
  obtain ⟨d, hdd⟩ := Int.eq_ofNat_of_zero_le hd
  have hcap := o.backing.cap_lt
  have hcap2 : (o.backing.cap : Int) < 2 ^ 63 := by
    unfold GoSlice.cap; exact_mod_cast hcap
  rw [hdd] at hc
  have e1 : ((i : Int) + 1) * (d : Int) = ((i * d + d : Nat) : Int) := by push_cast; ring
  have e0 : (i : Int) * (d : Int) = ((i * d : Nat) : Int) := by push_cast; ring
  have hle : i * d + d ≤ o.backing.elems.length := by
    rw [e1] at hc; unfold GoSlice.cap at hc; exact_mod_cast hc
  have hlt : ((i * d + d : Nat) : Int) < 2 ^ 63 := by
    unfold GoSlice.cap at hcap2; omega
  have w1 : wrapInt (((i : Int) + 1) * o.Dim) = ((i * d + d : Nat) : Int) := by
    rw [hdd, e1]; exact wrapInt_of_range _ (by omega) hlt
  have w0 : wrapInt ((i : Int) * o.Dim) = ((i * d : Nat) : Int) := by
    rw [hdd, e0]; exact wrapInt_of_range _ (by omega) (by omega)
  have hs : o.backing.slice ((i * d : Nat) : Int) ((i * d + d : Nat) : Int)
      = some ((List.range d).map (fun k => o.backing.elems.getD (i * d + k) 0)) := by
    unfold GoSlice.slice GoSlice.cap
    rw [if_pos (by omega)]
    have : (((i * d + d : Nat) : Int) - ((i * d : Nat) : Int)).toNat = d := by omega
    rw [this, Int.toNat_ofNat, drop_take_eq_map_getD _ _ _ hle]
  have hr : o.rowElems i = (List.range d).map (fun k => o.backing.elems.getD (i * d + k) 0) := by
    unfold DimSlicer.rowElems; rw [hdd, Int.toNat_ofNat]
  rw [w0, w1, hr]
  cases o with
  | dimslice_float32 dim s =>
    simp only [DimSlicer.backing] at hs
    simp only [DimSlicer.Slice, hs, Option.map_some', binaryWrite, DimSlicer.backing]
    rfl
  | dimslice_uint8 dim s =>
    simp only [DimSlicer.backing] at hs
    simp only [DimSlicer.Slice, hs, Option.map_some', binaryWrite, DimSlicer.backing]
    rfl

/-- The inner loop appends the row block when every source holds row `i`. -/
theorem encodeRow_eq (i : Nat) (objects : List DimSlicer) (buf : List Nat)
    (h : ∀ o ∈ objects, 0 ≤ o.Dim ∧ ((i : Int) + 1) * o.Dim ≤ (o.backing.cap : Int)) :
    encodeRow (i : Int) objects buf = some (buf ++ rowBlock objects i) := by
  induction objects generalizing buf with
  | nil => simp [encodeRow, rowBlock]
  | cons o rest ih =>
    have ho := h o (List.mem_cons_self _ _)
    have hs := slice_row o i ho.1 ho.2
    unfold encodeRow
    cases hS : o.Slice (wrapInt ((i : Int) * o.Dim)) (wrapInt (((i : Int) + 1) * o.Dim)) with
    | none => rw [hS] at hs; simp at hs
    | some data =>
      rw [hS] at hs
      simp only [Option.map_some', Option.some.injEq] at hs
      simp only []
      rw [ih _ (fun o1 h1 => h o1 (List.mem_cons_of_mem _ h1)), hs]
      simp [rowBlock]

/-- The outer loop appends the row blocks of rows `i, ..., i + n - 1` when every source
holds `i + n` rows. -/
theorem encodeRows_eq (objects : List DimSlicer) (n i : Nat) (buf : List Nat)
    (h : ∀ o ∈ objects, 0 ≤ o.Dim ∧ ((i : Int) + n) * o.Dim ≤ (o.backing.cap : Int)) :
    encodeRows objects n (i : Int) buf
      = some (buf ++ (List.range' i n).flatMap (rowBlock objects)) := by
  induction n generalizing i buf with
  | zero => simp [encodeRows]
  | succ n ih =>
    have hrow : ∀ o ∈ objects, 0 ≤ o.Dim ∧ ((i : Int) + 1) * o.Dim ≤ (o.backing.cap : Int) := by
      intro o ho
      obtain ⟨h0, h1⟩ := h o ho
      refine ⟨h0, le_trans ?_ h1⟩
      apply mul_le_mul_of_nonneg_right _ h0
      push_cast; omega
    unfold encodeRows
    rw [encodeRow_eq i objects buf hrow]
    simp only []
    have := ih (i + 1) (buf ++ rowBlock objects i) (by
      intro o ho
      obtain ⟨h0, h1⟩ := h o ho
      refine ⟨h0, ?_⟩
      have e : (((i + 1 : Nat) : Int) + (n : Int)) = (i : Int) + ((n + 1 : Nat) : Int) := by
        push_cast; ring
      rw [e]; exact h1)
    rw [show ((i : Int) + 1) = ((i + 1 : Nat) : Int) by push_cast; rfl, this]
    simp [List.range'_succ]

/-- `EncodeObjects` produces the interleaved layout when the row range starts at a
non-negative row and every source holds `length` rows. -/
theorem EncodeObjects_eq (offset length : Int) (objects : List DimSlicer)
    (h0 : 0 ≤ offset) (hdim : ∀ o ∈ objects, 0 ≤ o.Dim)
    (hcap : ∀ o ∈ objects, length * o.Dim ≤ (o.backing.cap : Int)) :
    EncodeObjects offset length objects
      = some (interleaved offset.toNat length.toNat objects) := by
  obtain ⟨a, rfl⟩ := Int.eq_ofNat_of_zero_le h0
  unfold EncodeObjects interleaved
  rcases le_or_lt length (a : Int) with hl | hl
  · have e1 : (length - (a : Int)).toNat = 0 := by omega
    have e2 : length.toNat - (a : Int).toNat = 0 := by omega
    rw [e1, e2]
    simp [encodeRows]
  · obtain ⟨b, rfl⟩ := Int.eq_ofNat_of_zero_le (show 0 ≤ length by omega)
    have e1 : ((b : Int) - (a : Int)).toNat = b - a := by omega
    rw [e1, Int.toNat_ofNat, Int.toNat_ofNat, encodeRows_eq objects (b - a) a []]
    · simp
    · intro o ho
      refine ⟨hdim o ho, ?_⟩
      have : (a : Int) + ((b - a : Nat) : Int) = (b : Int) := by omega
      rw [this]; exact hcap o ho

theorem length_encodeElems (o : DimSlicer) (xs : List Nat) :
    (xs.flatMap o.encodeElem).length = xs.length * o.elementSize := by
  induction xs with
  | nil => simp
  | cons x xs ih =>
    rw [List.flatMap_cons, List.length_append, ih, List.length_cons, Nat.add_mul, Nat.add_comm]
    cases o <;> simp [DimSlicer.encodeElem, DimSlicer.elementSize, putFloat32, putUint8]

theorem length_rowBlock (objects : List DimSlicer) (i : Nat) (hdim : ∀ o ∈ objects, 0 ≤ o.Dim) :
    ((rowBlock objects i).length : Int) = rowSize objects := by
  induction objects with
  | nil => simp [rowBlock, rowSize]
  | cons o rest ih =>
    have ih1 := ih (fun o1 h1 => hdim o1 (List.mem_cons_of_mem _ h1))
    have hd := hdim o (List.mem_cons_self _ _)
    unfold rowBlock rowSize at *
    rw [List.flatMap_cons, List.length_append, List.map_cons, List.sum_cons, Nat.cast_add, ih1,
      length_encodeElems]
    simp [DimSlicer.rowElems, Int.toNat_of_nonneg hd]

theorem length_interleaved (a n : Nat) (objects : List DimSlicer)
    (hdim : ∀ o ∈ objects, 0 ≤ o.Dim) :
    ((((List.range' a n).flatMap (rowBlock objects)).length : Nat) : Int)
      = (n : Int) * rowSize objects := by
  induction n generalizing a with
  | zero => simp
  | succ n ih =>
    rw [List.range'_succ, List.flatMap_cons, List.length_append, Nat.cast_add, ih,
      length_rowBlock objects a hdim]
    push_cast; ring

theorem putFloat32_le (x : Nat) :
    ∃ b0 b1 b2 b3, putFloat32 x = [b0, b1, b2, b3] ∧ b0 < 256 ∧ b1 < 256 ∧ b2 < 256 ∧ b3 < 256 ∧
      b0 + 256 * b1 + 65536 * b2 + 16777216 * b3 = x % 2 ^ 32 := by
  refine ⟨_, _, _, _, rfl, ?_, ?_, ?_, ?_, ?_⟩ <;> omega

theorem decodeLoop_putFloat32 (xs r : List Nat) (h : ∀ x ∈ xs, x < 2 ^ 32) :
    decodeLoop (xs.flatMap putFloat32) r = (r ++ xs, true) := by
  induction xs generalizing r with
  | nil => simp [decodeLoop]
  | cons x xs ih =>
    have hx := h x (List.mem_cons_self _ _)
    have e : x % 256 + 256 * (x / 256 % 256) + 65536 * (x / 65536 % 256)
        + 16777216 * (x / 16777216 % 256) = x := by omega
    have hc : (x :: xs).flatMap putFloat32 = x % 256 :: (x / 256 % 256) :: (x / 65536 % 256)
        :: (x / 16777216 % 256) :: xs.flatMap putFloat32 := rfl
    rw [hc, decodeLoop, e, ih (r ++ [x]) (fun y hy => h y (List.mem_cons_of_mem _ hy))]
    simp

theorem rows_eq_take (l : List Nat) (d n : Nat) (h : n * d ≤ l.length) :
    (List.range' 0 n).flatMap (fun i => (List.range d).map (fun k => l.getD (i * d + k) 0))
      = l.take (n * d) := by
  induction n with
  | zero => simp
  | succ n ih =>
    have h1 : n * d + d ≤ l.length := by rw [Nat.succ_mul] at h; exact h
    rw [List.range'_1_concat, List.flatMap_append, ih (by omega), Nat.succ_mul, List.take_add,
      drop_take_eq_map_getD l (n * d) d h1]
    simp

/-! ## Lemmas on the emitter -/

theorem wrapInt_range (x : Int) : -(2 ^ 63) ≤ wrapInt x ∧ wrapInt x < 2 ^ 63 := by
  unfold wrapInt
  omega

theorem length_spawned {F : Type} [Float32Ops F] (e : particleEmitter F) (n : Int)
    (rand : Nat → F) : (e.spawned n rand).length = (n + 1).toNat := by
  simp [particleEmitter.spawned]

/-- What a completed tick leaves: the particles from position `k` on, followed by the spawned
ones, all integrated once; `k` is the eviction count when it is positive and `0` otherwise. -/
theorem Tick_eq_some {F : Type} [Float32Ops F] (e e1 : particleEmitter F) (interval : Int)
    (rand : Nat → F) (h : e.Tick interval rand = some e1) :
    ∃ k : Nat, k ≤ e.particles.length ∧
      (k : Int) = max 0 (wrapInt ((e.particles.length : Int) + 1
        + e.spawnCount interval (rand 0) - e.num)) ∧
      e.particles.length - k + (e.spawnCount interval (rand 0) + 1).toNat < 2 ^ 63 ∧
      e1.particles = (e.particles.drop k ++ e.spawned (e.spawnCount interval (rand 0)) rand).map
        (fun p => p.Tick (gravityForce.Mul (Float32Ops.ofSeconds interval))) ∧
      e1.num = e.num ∧ e1.origin = e.origin ∧ e1.rate = e.rate := by
  unfold particleEmitter.Tick at h
  simp only at h
  generalize e.spawnCount interval (rand 0) = n at h ⊢
  generalize wrapInt ((e.particles.length : Int) + 1 + n - e.num) = extra at h ⊢
  by_cases hx : extra > 0
  · rw [if_pos hx] at h
    by_cases hl : extra ≤ (e.particles.length : Int)
    · rw [if_pos hl] at h
      simp only at h
      split at h
      · rename_i hg
        simp only [Option.some.injEq] at h
        subst h
        refine ⟨extra.toNat, by omega, by omega, ?_, rfl, rfl, rfl, rfl⟩
        rw [List.length_drop] at hg
        exact hg
      · simp at h
    · rw [if_neg hl] at h
      simp at h
  · rw [if_neg hx] at h
    simp only at h
    split at h
    · rename_i hg
      simp only [Option.some.injEq] at h
      subst h
      exact ⟨0, by omega, by omega, by simpa using hg, by simp, rfl, rfl, rfl⟩
    · simp at h

/-- A tick completes when the eviction count does not exceed the number of particles and the
particles left and spawned fit a slice. -/
theorem Tick_isSome {F : Type} [Float32Ops F] (e : particleEmitter F) (interval : Int)
    (rand : Nat → F)
    (hk : wrapInt ((e.particles.length : Int) + 1 + e.spawnCount interval (rand 0) - e.num)
      ≤ (e.particles.length : Int))
    (hg : (e.particles.length : Int)
      - max 0 (wrapInt ((e.particles.length : Int) + 1 + e.spawnCount interval (rand 0) - e.num))
      + (e.spawnCount interval (rand 0) + 1).toNat < 2 ^ 63) :
    ∃ e1, e.Tick interval rand = some e1 := by
  unfold particleEmitter.Tick
  simp only
  generalize e.spawnCount interval (rand 0) = n at hk hg ⊢
  generalize wrapInt ((e.particles.length : Int) + 1 + n - e.num) = extra at hk hg ⊢
  by_cases hx : extra > 0
  · rw [if_pos hx, if_pos hk]
    simp only
    rw [if_pos (by rw [List.length_drop]; zify; omega)]
    exact ⟨_, rfl⟩
  · rw [if_neg hx]
    simp only
    rw [if_pos (by zify; omega)]
    exact ⟨_, rfl⟩

/-- A completed tick keeps `num` and keeps the number of particles within `num`. -/
theorem Tick_Len_le {F : Type} [Float32Ops F] (e e1 : particleEmitter F) (interval : Int)
    (rand : Nat → F) (h : e.Tick interval rand = some e1) (hinv : (e.Len : Int) ≤ e.num) :
    e1.num = e.num ∧ (e1.Len : Int) ≤ e1.num := by
  obtain ⟨k, hk, hkx, hg, hp, hnum, _, _⟩ := Tick_eq_some e e1 interval rand h
  have hn : -(2 ^ 63) ≤ e.spawnCount interval (rand 0) ∧ e.spawnCount interval (rand 0) < 2 ^ 63 :=
    wrapInt_range _
  have hr := e.num_range
  refine ⟨hnum, ?_⟩
  unfold particleEmitter.Len at hinv ⊢
  rw [hp, hnum, List.length_map, List.length_append, List.length_drop, length_spawned]
  generalize e.spawnCount interval (rand 0) = n at hkx hn hg ⊢
  unfold wrapInt at hkx
  omega

/-- Completed ticks keep the number of particles within `num`. -/
theorem runTicks_Len_le_aux {F : Type} [Float32Ops F] (ticks : List (Int × (Nat → F)))
    (e0 e : particleEmitter F) (hrun : e0.runTicks ticks = some e)
    (hinv : (e0.Len : Int) ≤ e0.num) : e.num = e0.num ∧ (e.Len : Int) ≤ e.num := by
  induction ticks generalizing e0 with
  | nil =>
    simp only [particleEmitter.runTicks, Option.some.injEq] at hrun
    subst hrun
    exact ⟨rfl, hinv⟩
  | cons tick rest ih =>
    unfold particleEmitter.runTicks at hrun
    cases hT : e0.Tick tick.1 tick.2 with
    | none => rw [hT] at hrun; simp at hrun
    | some next =>
      rw [hT] at hrun
      simp only at hrun
      obtain ⟨h1, h2⟩ := Tick_Len_le e0 next tick.1 tick.2 hT hinv
      obtain ⟨h3, h4⟩ := ih next hrun h2
      exact ⟨h3.trans h1, h4⟩

/-! ## Lemmas on MultiMul -/

theorem foldl_step_ok {M : Type} [Mul M] (ms : List (Option M)) (r : M) :
    ms.foldl MultiMul.step (r, true) = ((ms.filterMap id).foldl (· * ·) r, true) := by
  induction ms generalizing r with
  | nil => rfl
  | cons m ms ih =>
    cases m with
    | none => simpa [MultiMul.step] using ih r
    | some a => simpa [MultiMul.step] using ih (r * a)

theorem foldl_step_start {M : Type} [Mul M] (ms : List (Option M)) (z : M) :
    ms.foldl MultiMul.step (z, false) =
      match ms.filterMap id with
      | [] => (z, false)
      | m :: rest => (rest.foldl (· * ·) m, true) := by
  induction ms with
  | nil => rfl
  | cons m ms ih =>
    cases m with
    | none => simpa [MultiMul.step] using ih
    | some a => simpa [MultiMul.step] using foldl_step_ok ms a

/-- `MultiMul` is the ordered product of the non-nil entries, the identity when there is
none. -/
theorem MultiMul_eq {M : Type} [Mul M] [One M] [Zero M] (ms : List (Option M)) :
    MultiMul ms =
      match ms.filterMap id with
      | [] => 1
      | m :: rest => rest.foldl (· * ·) m := by
  unfold MultiMul
  rw [foldl_step_start]
  cases ms.filterMap id <;> simp

theorem foldl_getD_one {M : Type} [MulOneClass M] (ms : List (Option M)) (r : M) :
    (ms.map (fun m => m.getD 1)).foldl (· * ·) r = (ms.filterMap id).foldl (· * ·) r := by
  induction ms generalizing r with
  | nil => rfl
  | cons m ms ih =>
    cases m with
    | none => simpa using ih r
    | some a => simpa using ih (r * a)

/-! ## Lemmas on the scene -/

/-- Once the shader `s` is active and cached, a node with this shader adds the calls of its
own draw only and leaves the frame context as it is. -/
theorem foldl_drawNode_bound {S M : Type} [DecidableEq S] (s : S) (tr : Option M)
    (rest : List (Node S M)) (hs : ∀ node ∈ rest, node.shader = s) (calls : List (Call S)) :
    rest.foldl (sliceScene.drawNode tr) (⟨some [s], some s⟩, calls)
      = (⟨some [s], some s⟩, calls ++ rest.flatMap (fun node => node.Draw ⟨s, tr⟩)) := by
  induction rest generalizing calls with
  | nil => simp
  | cons node rest ih =>
    have h1 : node.shader = s := hs node (List.mem_cons_self _ _)
    have step : sliceScene.drawNode tr (⟨some [s], some s⟩, calls) node
        = (⟨some [s], some s⟩, calls ++ node.Draw ⟨s, tr⟩) := by
      simp [sliceScene.drawNode, FrameContext.DrawContext, Node.Shader, h1]
    rw [List.foldl_cons, step, ih (fun n hn => hs n (List.mem_cons_of_mem _ hn))]
    simp

/-- The calls of a draw of nodes that share the shader `s`, from a fresh frame context. -/
theorem Draw_shared_eq {S M : Type} [DecidableEq S] (s : S) (tr : Option M) (node : Node S M)
    (rest : List (Node S M)) (hs : ∀ n ∈ node :: rest, n.shader = s) :
    sliceScene.Draw ⟨node :: rest, tr⟩ FrameContext.fresh
      = Call.Use s :: FrameContext.bindShader s
        ++ (node :: rest).flatMap (fun n => n.Draw ⟨s, tr⟩) := by
  have h1 : node.shader = s := hs node (List.mem_cons_self _ _)
  have step : sliceScene.drawNode tr (FrameContext.fresh, []) node
      = (⟨some [s], some s⟩, Call.Use s :: FrameContext.bindShader s ++ node.Draw ⟨s, tr⟩) := by
    simp [sliceScene.drawNode, FrameContext.DrawContext, Node.Shader, h1, FrameContext.fresh]
  unfold sliceScene.Draw
  simp only [List.foldl_cons]
  rw [step, foldl_drawNode_bound s tr rest (fun n hn => hs n (List.mem_cons_of_mem _ hn))]
  simp

/-- The draws of plain nodes hold no call but the uploads of `model` and `normalMatrix` and
the draw of the shape. -/
theorem count_nodes_Draw {S M : Type} [DecidableEq S] (ctx : DrawContext S M)
    (nodes : List (Node S M)) (c : Call S)
    (h1 : c ≠ Call.UniformMatrix4fv ctx.Shader "model")
    (h2 : c ≠ Call.UniformMatrix4fv ctx.Shader "normalMatrix")
    (h3 : c ≠ Call.ShapeDraw ctx.Shader) :
    (nodes.flatMap (fun n => n.Draw ctx)).count c = 0 := by
  rw [List.count_eq_zero]
  intro hc
  rw [List.mem_flatMap] at hc
  obtain ⟨n, _, hn⟩ := hc
  simp only [Node.Draw, List.mem_cons, List.mem_singleton, List.not_mem_nil, or_false] at hn
  rcases hn with h | h | h
  · exact h1 h
  · exact h2 h
  · exact h3 h

/-! ## Lemmas on the visit order -/

theorem DrawContext_ctx {S M : Type} [DecidableEq S] (ctx : FrameContext S) (shader : S) :
    (ctx.DrawContext (M := M) shader).2.2 = ⟨shader, none⟩ := by
  unfold FrameContext.DrawContext
  simp only
  split
  · rfl
  · split <;> rfl

theorem DrawContext_no_ShapeDraw {S M : Type} [DecidableEq S] (ctx : FrameContext S)
    (shader : S) :
    (ctx.DrawContext (M := M) shader).2.1.filter Call.isShapeDraw = [] := by
  unfold FrameContext.DrawContext
  simp only
  split
  · split <;> simp [FrameContext.bindShader, Call.isShapeDraw]
  · split <;> split <;> simp [FrameContext.bindShader, Call.isShapeDraw]

theorem foldl_Add_nodes {S M : Type} (items : List (Node S M)) (scene : sliceScene S M) :
    (items.foldl sliceScene.Add scene).nodes = scene.nodes ++ items ∧
      (items.foldl sliceScene.Add scene).transform = scene.transform := by
  induction items generalizing scene with
  | nil => simp
  | cons item rest ih =>
    rw [List.foldl_cons]
    obtain ⟨h1, h2⟩ := ih (scene.Add item)
    rw [h1, h2]
    simp [sliceScene.Add]

theorem foldl_visitNode {S M : Type} [DecidableEq S] (tr : Option M) (nodes : List (Node S M))
    (frame : FrameContext S) (acc : List (Node S M × DrawContext S M)) :
    (nodes.foldl (sliceScene.visitNode tr) (frame, acc)).2
      = acc ++ nodes.map (fun n => (n, ⟨n.Shader, tr⟩)) := by
  induction nodes generalizing frame acc with
  | nil => simp
  | cons node rest ih =>
    have step : sliceScene.visitNode tr (frame, acc) node
        = ((frame.DrawContext (M := M) node.Shader).1, acc ++ [(node, ⟨node.Shader, tr⟩)]) := by
      unfold sliceScene.visitNode
      simp only [DrawContext_ctx]
    rw [List.foldl_cons, step, ih]
    simp

theorem foldl_drawNode_ShapeDraw {S M : Type} [DecidableEq S] (tr : Option M)
    (nodes : List (Node S M)) (frame : FrameContext S) (calls : List (Call S)) :
    (nodes.foldl (sliceScene.drawNode tr) (frame, calls)).2.filter Call.isShapeDraw
      = calls.filter Call.isShapeDraw ++ nodes.map (fun n => Call.ShapeDraw n.Shader) := by
  induction nodes generalizing frame calls with
  | nil => simp
  | cons node rest ih =>
    have step : sliceScene.drawNode tr (frame, calls) node
        = ((frame.DrawContext (M := M) node.Shader).1,
            calls ++ (frame.DrawContext (M := M) node.Shader).2.1
              ++ node.Draw ⟨node.Shader, tr⟩) := by
      unfold sliceScene.drawNode
      simp only [DrawContext_ctx]
    rw [List.foldl_cons, step, ih, List.filter_append, List.filter_append,
      DrawContext_no_ShapeDraw]
    simp [Node.Draw, Call.isShapeDraw]

/-! ## Lemmas on the cameras -/

theorem Vec3_eq {K : Type} (a b : Vec3 K) (hx : a.x = b.x) (hy : a.y = b.y) (hz : a.z = b.z) :
    a = b := by
  cases a
  cases b
  simp only [Vec3.mk.injEq]
  exact ⟨hx, hy, hz⟩

theorem Rotate_pitch_eq {D F P : Type} (ops : EulerOps D F) (c : EulerCamera D F P)
    (delta : Vec3 F) :
    (c.Rotate ops delta).pitch
      = if ops.gt (ops.add c.pitch (ops.toFloat64 delta.x)) ops.halfPi = true then ops.halfPi
        else if ops.lt (ops.add c.pitch (ops.toFloat64 delta.x)) ops.negHalfPi = true
          then ops.negHalfPi
        else ops.add c.pitch (ops.toFloat64 delta.x) := rfl

theorem Rotate_yaw_eq {D F P : Type} (ops : EulerOps D F) (c : EulerCamera D F P)
    (delta : Vec3 F) :
    (c.Rotate ops delta).yaw = ops.add c.yaw (ops.toFloat64 delta.y) := rfl

theorem rotates_append {D F P : Type} (ops : EulerOps D F) (c : EulerCamera D F P)
    (deltas : List (Vec3 F)) (delta : Vec3 F) :
    c.rotates ops (deltas ++ [delta]) = (c.rotates ops deltas).Rotate ops delta := by
  unfold EulerCamera.rotates
  rw [List.foldl_append, List.foldl_cons, List.foldl_nil]

theorem rotates_yaw {D F P : Type} (ops : EulerOps D F) (deltas : List (Vec3 F))
    (c : EulerCamera D F P) :
    (c.rotates ops deltas).yaw
      = deltas.foldl (fun y d => ops.add y (ops.toFloat64 d.y)) c.yaw := by
  induction deltas generalizing c with
  | nil => rfl
  | cons d ds ih =>
    have step : EulerCamera.rotates ops c (d :: ds)
        = EulerCamera.rotates ops (c.Rotate ops d) ds := rfl
    rw [step, ih, List.foldl_cons, Rotate_yaw_eq]

theorem Rotate_pitch_facts {D F P : Type} (ops : EulerOps D F) (h : ops.IEEE)
    (c : EulerCamera D F P) (delta : Vec3 F) :
    ops.gt (c.Rotate ops delta).pitch ops.halfPi = false ∧
    ops.lt (c.Rotate ops delta).pitch ops.negHalfPi = false ∧
    ops.isNaN (c.Rotate ops delta).pitch
      = ops.isNaN (ops.add c.pitch (ops.toFloat64 delta.x)) ∧
    (ops.isNaN (ops.add c.pitch (ops.toFloat64 delta.x)) = false →
      ops.le ops.negHalfPi (c.Rotate ops delta).pitch = true ∧
      ops.le (c.Rotate ops delta).pitch ops.halfPi = true) ∧
    (ops.isNaN (ops.add c.pitch (ops.toFloat64 delta.x)) = true →
      ops.le ops.negHalfPi (c.Rotate ops delta).pitch = false ∧
      ops.le (c.Rotate ops delta).pitch ops.halfPi = false) := by
  rw [Rotate_pitch_eq]
  generalize ops.add c.pitch (ops.toFloat64 delta.x) = s
  have hH := h.halfPi_num
  have hN := h.negHalfPi_num
  have hNH := h.neg_le_halfPi
  have hHH := h.le_self _ hH
  have hNN := h.le_self _ hN
  have g1 : ops.gt ops.halfPi ops.halfPi = false := by
    have e := h.le_not_gt _ _ hH hH
    rw [hHH] at e
    simpa using e.symm
  have g2 : ops.lt ops.halfPi ops.negHalfPi = false := by
    have e := h.ge_not_lt _ _ hH hN
    rw [hNH] at e
    simpa using e.symm
  have g3 : ops.gt ops.negHalfPi ops.halfPi = false := by
    have e := h.le_not_gt _ _ hN hH
    rw [hNH] at e
    simpa using e.symm
  have g4 : ops.lt ops.negHalfPi ops.negHalfPi = false := by
    have e := h.ge_not_lt _ _ hN hN
    rw [hNN] at e
    simpa using e.symm
  cases hs : ops.isNaN s with
  | true =>
    have a1 := h.gt_nan s ops.halfPi (Or.inl hs)
    have a2 := h.lt_nan s ops.negHalfPi (Or.inl hs)
    have a3 := h.le_nan ops.negHalfPi s (Or.inr hs)
    have a4 := h.le_nan s ops.halfPi (Or.inl hs)
    simp [a1, a2, a3, a4, hs]
  | false =>
    have b1 := h.le_not_gt s ops.halfPi hs hH
    have b2 := h.ge_not_lt s ops.negHalfPi hs hN
    cases hg : ops.gt s ops.halfPi with
    | true => simp [g1, g2, hH, hNH, hHH]
    | false =>
      cases hl : ops.lt s ops.negHalfPi with
      | true => simp [g3, g4, hN, hNH, hNN]
      | false =>
        rw [hg] at b1
        rw [hl] at b2
        simp [hg, hl, hs, b1, b2]

theorem ratOps_IEEE : ratOps.IEEE where
  gt_nan := by
    intro x y hxy
    cases x <;> cases y <;> simp_all [ratOps, ratGt]
  lt_nan := by
    intro x y hxy
    cases x <;> cases y <;> simp_all [ratOps, ratLt]
  le_nan := by
    intro x y hxy
    cases x <;> cases y <;> simp_all [ratOps, ratLe]
  le_not_gt := by
    intro x y hx hy
    cases x with
    | none => simp [ratOps] at hx
    | some a =>
      cases y with
      | none => simp [ratOps] at hy
      | some b =>
        show decide (a ≤ b) = !decide (a > b)
        by_cases hab : a ≤ b
        · simp [hab, not_lt.mpr hab]
        · simp [hab, not_le.mp hab]
  ge_not_lt := by
    intro x y hx hy
    cases x with
    | none => simp [ratOps] at hx
    | some a =>
      cases y with
      | none => simp [ratOps] at hy
      | some b =>
        show decide (b ≤ a) = !decide (a < b)
        by_cases hab : b ≤ a
        · simp [hab, not_lt.mpr hab]
        · simp [hab, not_le.mp hab]
  le_self := by
    intro x hx
    cases x <;> simp_all [ratOps, ratLe]
  halfPi_num := rfl
  negHalfPi_num := rfl
  neg_le_halfPi := by decide!

/-! ## Lemmas on the panics of the encoder -/

theorem Slice_none_of_neg (o : DimSlicer) (i j : Int) (h : i < 0) : o.Slice i j = none := by
  have hs : o.backing.slice i j = none := by
    unfold GoSlice.slice
    rw [if_neg (by omega)]
  cases o <;> simp only [DimSlicer.backing] at hs <;> simp [DimSlicer.Slice, hs]

theorem Slice_none_of_gt (o : DimSlicer) (i j : Int) (h : (o.backing.cap : Int) < j) :
    o.Slice i j = none := by
  have hs : o.backing.slice i j = none := by
    unfold GoSlice.slice
    rw [if_neg (by omega)]
  cases o <;> simp only [DimSlicer.backing] at hs <;> simp [DimSlicer.Slice, hs]

/-- The inner loop panics when the slice expression of one of the sources does. -/
theorem encodeRow_none (i : Int) (objects : List DimSlicer) (buf : List Nat) (o : DimSlicer)
    (ho : o ∈ objects)
    (hs : o.Slice (wrapInt (i * o.Dim)) (wrapInt ((i + 1) * o.Dim)) = none) :
    encodeRow i objects buf = none := by
  induction objects generalizing buf with
  | nil => simp at ho
  | cons a rest ih =>
    unfold encodeRow
    cases hS : a.Slice (wrapInt (i * a.Dim)) (wrapInt ((i + 1) * a.Dim)) with
    | none => rfl
    | some data =>
      simp only
      rcases List.mem_cons.mp ho with h | h
      · subst h
        rw [hs] at hS
        simp at hS
      · exact ih _ h

/-- The outer loop panics when one of the rows it runs through does. -/
theorem encodeRows_none (objects : List DimSlicer) (n : Nat) (i : Int) (buf : List Nat)
    (j : Nat) (hj : j < n) (o : DimSlicer) (ho : o ∈ objects)
    (hs : o.Slice (wrapInt ((i + j) * o.Dim)) (wrapInt ((i + j + 1) * o.Dim)) = none) :
    encodeRows objects n i buf = none := by
  induction n generalizing i buf j with
  | zero => omega
  | succ n ih =>
    unfold encodeRows
    cases hR : encodeRow i objects buf with
    | none => rfl
    | some buf1 =>
      simp only
      cases j with
      | zero =>
        simp only [Nat.cast_zero, add_zero] at hs
        rw [encodeRow_none i objects buf o ho hs] at hR
        simp at hR
      | succ j =>
        apply ih (i + 1) buf1 j (by omega)
        have e : i + 1 + (j : Int) = i + ((j + 1 : Nat) : Int) := by push_cast; ring
        rw [e]
        exact hs

/-- `EncodeObjects` panics when a source's backing array is too short for the last row. -/
theorem EncodeObjects_none_of_short (offset length : Int) (objects : List DimSlicer)
    (hlt : offset < length) (o : DimSlicer) (ho : o ∈ objects)
    (hcap : (o.backing.cap : Int) < length * o.Dim) (hfit : length * o.Dim < 2 ^ 63) :
    EncodeObjects offset length objects = none := by
  unfold EncodeObjects
  apply encodeRows_none objects _ offset [] (length - 1 - offset).toNat (by omega) o ho
  have e : offset + ((length - 1 - offset).toNat : Int) + 1 = length := by omega
  rw [e]
  apply Slice_none_of_gt
  rw [wrapInt_of_range _ (by omega) hfit]
  exact hcap

/-- `EncodeObjects` panics at the first row when it is negative and a source has a positive
dimension. -/
theorem EncodeObjects_none_of_neg (offset length : Int) (objects : List DimSlicer)
    (hlt : offset < length) (hneg : offset < 0) (o : DimSlicer) (ho : o ∈ objects)
    (hdim : 1 ≤ o.Dim) (hfit : -(2 ^ 63) ≤ offset * o.Dim) :
    EncodeObjects offset length objects = none := by
  unfold EncodeObjects
  apply encodeRows_none objects _ offset [] 0 (by omega) o ho
  simp only [Nat.cast_zero, add_zero]
  apply Slice_none_of_neg
  have hprod : offset * o.Dim < 0 := mul_neg_of_neg_of_pos hneg (by omega)
  unfold wrapInt
  omega

/-! ## Lemmas on the shapes -/

theorem objects_eq_sources (shape : StaticShape) : shape.objects = some shape.sources := by
  unfold StaticShape.objects StaticShape.sources NewDimSlice
  by_cases ht : shape.textures.len > 0 <;> by_cases hn : shape.normals.len > 0 <;>
    simp [ht, hn]

theorem Len_eq (shape : StaticShape) : shape.Len = ((shape.vertices.len / 3 : Nat) : Int) :=
  (Int.ofNat_tdiv _ 3).symm

theorem Stride_eq_rowSize (shape : StaticShape) : shape.Stride = rowSize shape.sources := by
  unfold StaticShape.Stride StaticShape.sources rowSize
  by_cases ht : shape.textures.len > 0 <;> by_cases hn : shape.normals.len > 0 <;>
    simp [ht, hn, DimSlicer.Dim, DimSlicer.elementSize, vertexDim, textureDim, normalDim, vecSize]

theorem sources_Dim_nonneg (shape : StaticShape) : ∀ o ∈ shape.sources, 0 ≤ o.Dim := by
  intro o ho
  unfold StaticShape.sources at ho
  simp only [List.mem_append, List.mem_singleton] at ho
  rcases ho with (h | h) | h
  · subst h; simp [DimSlicer.Dim, vertexDim]
  · split at h
    · simp only [List.mem_singleton] at h; subst h; simp [DimSlicer.Dim, textureDim]
    · simp at h
  · split at h
    · simp only [List.mem_singleton] at h; subst h; simp [DimSlicer.Dim, normalDim]
    · simp at h

theorem BytesOffset_eq (shape : StaticShape) (n : Int) :
    shape.BytesOffset n = EncodeObjects n shape.Len shape.sources := by
  unfold StaticShape.BytesOffset
  rw [objects_eq_sources]
  rfl

theorem sources_cap (shape : StaticShape)
    (ht : shape.textures.len > 0 → textureDim * shape.Len ≤ (shape.textures.cap : Int))
    (hn : shape.normals.len > 0 → normalDim * shape.Len ≤ (shape.normals.cap : Int)) :
    ∀ o ∈ shape.sources, shape.Len * o.Dim ≤ (o.backing.cap : Int) := by
  intro o ho
  unfold StaticShape.sources at ho
  simp only [List.mem_append, List.mem_singleton] at ho
  rcases ho with (h | h) | h
  · subst h
    have h1 := shape.vertices.len_le
    simp only [DimSlicer.Dim, DimSlicer.backing, GoSlice.cap, vertexDim, Len_eq]
    omega
  · split at h
    · rename_i hp
      simp only [List.mem_singleton] at h
      subst h
      have := ht hp
      simp only [DimSlicer.Dim, DimSlicer.backing]
      rw [mul_comm]
      exact this
    · simp at h
  · split at h
    · rename_i hp
      simp only [List.mem_singleton] at h
      subst h
      have := hn hp
      simp only [DimSlicer.Dim, DimSlicer.backing]
      rw [mul_comm]
      exact this
    · simp at h

theorem BytesOffset_some (shape : StaticShape) (n : Int) (h0 : 0 ≤ n)
    (ht : shape.textures.len > 0 → textureDim * shape.Len ≤ (shape.textures.cap : Int))
    (hn : shape.normals.len > 0 → normalDim * shape.Len ≤ (shape.normals.cap : Int)) :
    shape.BytesOffset n = some (interleaved n.toNat shape.Len.toNat shape.sources) := by
  rw [BytesOffset_eq]
  exact EncodeObjects_eq n shape.Len shape.sources h0 (sources_Dim_nonneg shape)
    (sources_cap shape ht hn)

theorem BytesOffset_none_textures (shape : StaticShape) (n : Int) (hlt : n < shape.Len)
    (hp : shape.textures.len > 0)
    (hc : (shape.textures.cap : Int) < textureDim * shape.Len) :
    shape.BytesOffset n = none := by
  rw [BytesOffset_eq]
  have h1 := shape.vertices.cap_lt
  have h2 := shape.vertices.len_le
  apply EncodeObjects_none_of_short n shape.Len shape.sources hlt
    (DimSlicer.dimslice_float32 textureDim shape.textures)
  · unfold StaticShape.sources
    simp [hp]
  · simp only [DimSlicer.Dim, DimSlicer.backing]
    rw [mul_comm]
    exact hc
  · simp only [DimSlicer.Dim, textureDim, Len_eq]
    omega

theorem BytesOffset_none_normals (shape : StaticShape) (n : Int) (hlt : n < shape.Len)
    (hp : shape.normals.len > 0)
    (hc : (shape.normals.cap : Int) < normalDim * shape.Len) :
    shape.BytesOffset n = none := by
  rw [BytesOffset_eq]
  have h1 := shape.vertices.cap_lt
  have h2 := shape.vertices.len_le
  apply EncodeObjects_none_of_short n shape.Len shape.sources hlt
    (DimSlicer.dimslice_float32 normalDim shape.normals)
  · unfold StaticShape.sources
    simp [hp]
  · simp only [DimSlicer.Dim, DimSlicer.backing]
    rw [mul_comm]
    exact hc
  · simp only [DimSlicer.Dim, normalDim, Len_eq]
    omega

/-- The encoding from row `n` on is the encoding from row `0` on without its first `n`
rows. -/
theorem interleaved_drop (n L : Nat) (objects : List DimSlicer) (hle : n ≤ L)
    (hdim : ∀ o ∈ objects, 0 ≤ o.Dim) :
    interleaved n L objects
      = (interleaved 0 L objects).drop ((n : Int) * rowSize objects).toNat := by
  unfold interleaved
  have hr : List.range' 0 (L - 0) = List.range' 0 n ++ List.range' n (L - n) := by
    have h := List.range'_append_1 0 n (L - n)
    rw [Nat.zero_add] at h
    rw [h]
    congr 1
    omega
  have hlen := length_interleaved 0 n objects hdim
  rw [hr, List.flatMap_append, List.drop_append_of_le_length (by omega), List.drop_of_length_le
    (by omega), List.nil_append]

/-! ## Lemmas on the bytes and the origin of the emitter -/

theorem length_Vertices {F : Type} [VertexOps F] (p : particle F) : p.Vertices.length = 9 := rfl

theorem length_Bytes {F : Type} [VertexOps F] (e : particleEmitter F) :
    e.Bytes.length = 36 * e.Len := by
  unfold particleEmitter.Bytes particleEmitter.Len
  induction e.particles with
  | nil => rfl
  | cons p rest ih =>
    rw [List.flatMap_cons, List.length_append, ih, List.length_cons]
    have h : (binaryWrite (SliceData.float32s (p.Vertices.map VertexOps.bits))).length = 36 := by
      simp [binaryWrite, particle.Vertices, putFloat32]
    rw [h]
    omega

theorem MoveTo_Tick_isSome {F : Type} [Float32Ops F] (e : particleEmitter F) (pos : Vec3 F)
    (interval : Int) (rand : Nat → F) :
    ((e.MoveTo pos).Tick interval rand).isSome = (e.Tick interval rand).isSome := by
  unfold particleEmitter.Tick
  simp only [particleEmitter.MoveTo, particleEmitter.spawnCount]
  split
  · rfl
  · split <;> rfl

/-! ## Lemmas on the quaternion camera -/

/-- The local axes: for a linear `rotate`, the rotated delta is the sum of the rotated axes
scaled by the components of the delta. -/
theorem rotate_delta {K Q : Type} [Ring K] (rotate : Q → Vec3 K → Vec3 K)
    (hadd : ∀ q u v, rotate q (u.Add v) = (rotate q u).Add (rotate q v))
    (hmul : ∀ q v k, rotate q (v.Mul k) = (rotate q v).Mul k) (q : Q) (delta : Vec3 K) :
    rotate q delta = (((rotate q AxisRight).Mul delta.x).Add ((rotate q AxisUp).Mul delta.y)).Add
      ((rotate q AxisFront).Mul delta.z) := by
  have hd : delta = ((AxisRight.Mul delta.x).Add (AxisUp.Mul delta.y)).Add
      (AxisFront.Mul delta.z) := by
    apply Vec3_eq <;> simp [Vec3.Add, Vec3.Mul, AxisRight, AxisUp, AxisFront]
  conv_lhs => rw [hd]
  rw [hadd, hadd, hmul, hmul, hmul]

theorem rotate_axisBack {K Q : Type} [Ring K] (rotate : Q → Vec3 K → Vec3 K)
    (hmul : ∀ q v k, rotate q (v.Mul k) = (rotate q v).Mul k) (q : Q) :
    rotate q ((⟨0, 0, 0⟩ : Vec3 K).Sub AxisFront) = (rotate q AxisFront).Mul (-1) := by
  have hb : (⟨0, 0, 0⟩ : Vec3 K).Sub AxisFront = (AxisFront : Vec3 K).Mul (-1) := by
    apply Vec3_eq <;> simp [Vec3.Sub, Vec3.Mul, AxisFront]
  rw [hb, hmul]

/-! ## Lemmas on shapes without texture coordinates -/

theorem sources_no_textures (shape : StaticShape) (hn : shape.normals.len > 0)
    (ht : shape.textures.len = 0) :
    shape.sources = [DimSlicer.dimslice_float32 vertexDim shape.vertices,
      DimSlicer.dimslice_float32 normalDim shape.normals] := by
  unfold StaticShape.sources
  simp [ht, hn]

theorem rowBlock_no_textures (shape : StaticShape) (hn : shape.normals.len > 0)
    (ht : shape.textures.len = 0) (i : Nat) :
    rowBlock shape.sources i
      = [shape.vertices.elems.getD (i * 3) 0, shape.vertices.elems.getD (i * 3 + 1) 0,
          shape.vertices.elems.getD (i * 3 + 2) 0].flatMap putFloat32
        ++ [shape.normals.elems.getD (i * 3) 0, shape.normals.elems.getD (i * 3 + 1) 0,
          shape.normals.elems.getD (i * 3 + 2) 0].flatMap putFloat32 := by
  rw [sources_no_textures shape hn ht]
  rfl

theorem interleaved_cons (i L : Nat) (objects : List DimSlicer) (h : i < L) :
    interleaved i L objects = rowBlock objects i ++ interleaved (i + 1) L objects := by
  unfold interleaved
  have e : L - i = (L - (i + 1)) + 1 := by omega
  rw [e, List.range'_succ, List.flatMap_cons]

theorem Stride_no_textures (shape : StaticShape) (hn : shape.normals.len > 0)
    (ht : shape.textures.len = 0) : shape.Stride = 24 := by
  unfold StaticShape.Stride
  simp [ht, hn, vertexDim, normalDim, vecSize]

theorem Bytes_normals_at (shape : StaticShape) (hn : shape.normals.len > 0)
    (ht : shape.textures.len = 0) (i : Nat) (hi : (i : Int) < shape.Len) :
    ((interleaved 0 shape.Len.toNat shape.sources).drop
        ((i : Int) * shape.Stride + vertexDim * vecSize).toNat).take (normalDim * vecSize).toNat
      = [shape.normals.elems.getD (i * 3) 0, shape.normals.elems.getD (i * 3 + 1) 0,
          shape.normals.elems.getD (i * 3 + 2) 0].flatMap putFloat32 := by
  have hS := Stride_no_textures shape hn ht
  have hrow := Stride_eq_rowSize shape
  have hiL : i < shape.Len.toNat := by omega
  have hd := interleaved_drop i shape.Len.toNat shape.sources (by omega)
    (sources_Dim_nonneg shape)
  rw [← hrow, hS] at hd
  have e1 : ((i : Int) * shape.Stride + vertexDim * vecSize).toNat
      = ((i : Int) * 24).toNat + 12 := by
    rw [hS]
    simp only [vertexDim, vecSize]
    omega
  have e2 : (normalDim * vecSize).toNat = 12 := rfl
  rw [e1, e2, ← List.drop_drop, ← hd, interleaved_cons _ _ _ hiL,
    rowBlock_no_textures shape hn ht]
  simp [putFloat32]

/-! ## Verified properties -/

/-- C1: for `0 <= offset <= length` and sources (of either element type, in any number,
in particular 1 to 3) with non-negative dimensions whose backing arrays hold at least
`length * dim` elements, `EncodeObjects` returns, without panic, exactly
`(length - offset) * sum_i (dim_i * elementSize_i)` bytes. -/
theorem EncodeObjects_length (offset length : Int) (objects : List DimSlicer)
    (h0 : 0 ≤ offset) (hle : offset ≤ length) (hdim : ∀ o ∈ objects, 0 ≤ o.Dim)
    (hcap : ∀ o ∈ objects, length * o.Dim ≤ (o.backing.cap : Int)) :
    ∃ bytes, EncodeObjects offset length objects = some bytes ∧
      (bytes.length : Int) = (length - offset) * rowSize objects := by
  refine ⟨_, EncodeObjects_eq offset length objects h0 hdim hcap, ?_⟩
  unfold interleaved
  rw [length_interleaved _ _ objects hdim]
  congr 1
  omega

/-- Witness of C1: rows 1 and 2 of three sources, of dimensions 3 (`float32`), 2 (`float32`)
and 1 (`uint8`), give `2 * (12 + 8 + 1) = 42` bytes. -/
theorem EncodeObjects_length_witness :
    ∃ bytes, EncodeObjects 1 3
        [DimSlicer.dimslice_float32 3 (GoSlice.lit [1, 2, 3, 4, 5, 6, 7, 8, 9] (by decide)),
         DimSlicer.dimslice_float32 2 (GoSlice.lit [1, 2, 3, 4, 5, 6] (by decide)),
         DimSlicer.dimslice_uint8 1 (GoSlice.lit [7, 8, 9] (by decide))] = some bytes ∧
      (bytes.length : Int) = (3 - 1) * rowSize
        [DimSlicer.dimslice_float32 3 (GoSlice.lit [1, 2, 3, 4, 5, 6, 7, 8, 9] (by decide)),
         DimSlicer.dimslice_float32 2 (GoSlice.lit [1, 2, 3, 4, 5, 6] (by decide)),
         DimSlicer.dimslice_uint8 1 (GoSlice.lit [7, 8, 9] (by decide))] :=
  EncodeObjects_length 1 3 _ (by decide) (by decide)
    (by intro o ho; simp at ho; rcases ho with rfl | rfl | rfl <;> simp [DimSlicer.Dim])
    (by
      intro o ho; simp at ho
      rcases ho with rfl | rfl | rfl <;>
        simp [DimSlicer.Dim, DimSlicer.backing, GoSlice.cap, GoSlice.lit])

/-- C2: round trip. For every dimension `d` (in particular `d >= 1`), every `N` and every
`float32` slice `src` of exactly `N * d` values (bit patterns of 32 bits),
`NewDimSlice(d, src)` succeeds, `EncodeObjects(0, N, ...)` returns bytes, and
`DecodeObjects` of these bytes returns `src` element for element with a nil error. -/
theorem DecodeObjects_EncodeObjects (d N : Nat) (src : GoSlice)
    (hlen : src.len = N * d) (hbits : ∀ x ∈ src.toList, x < 2 ^ 32) :
    ∃ obj bytes, NewDimSlice (d : Int) (GoValue.float32s src) = some obj ∧
      EncodeObjects 0 (N : Int) [obj] = some bytes ∧
      DecodeObjects bytes = (src.toList, true) := by
  have hcapN : N * d ≤ src.elems.length := hlen ▸ src.len_le
  refine ⟨DimSlicer.dimslice_float32 d src, _, rfl, EncodeObjects_eq 0 N _ (le_refl _) ?_ ?_, ?_⟩
  · intro o ho
    simp only [List.mem_singleton] at ho
    subst ho
    simp [DimSlicer.Dim]
  · intro o ho
    simp only [List.mem_singleton] at ho
    subst ho
    simp only [DimSlicer.Dim, DimSlicer.backing, GoSlice.cap]
    exact_mod_cast hcapN
  · have e : interleaved (0 : Int).toNat ((N : Int)).toNat [DimSlicer.dimslice_float32 d src]
        = (src.elems.take (N * d)).flatMap putFloat32 := by
      unfold interleaved
      have hrow : rowBlock [DimSlicer.dimslice_float32 d src]
          = fun i => ((List.range d).map (fun k => src.elems.getD (i * d + k) 0)).flatMap
              putFloat32 := by
        funext i
        simp [rowBlock, DimSlicer.rowElems, DimSlicer.Dim, DimSlicer.backing]
        rfl
      rw [← rows_eq_take src.elems d N hcapN, List.flatMap_assoc, hrow]
      simp
    unfold DecodeObjects
    rw [e, decodeLoop_putFloat32]
    · simp [GoSlice.toList, hlen]
    · intro x hx
      apply hbits
      simpa [GoSlice.toList, hlen] using hx

/-- Witness of C2, the last case of `TestEncodeObjects`: the floats `1, ..., 9` (as bit
patterns) with `d = 3`, `N = 3`. -/
theorem DecodeObjects_EncodeObjects_witness :
    ∃ obj bytes,
      NewDimSlice 3 (GoValue.float32s (GoSlice.lit
        [1065353216, 1073741824, 1077936128, 1082130432, 1084227584, 1086324736, 1088421888,
          1090519040, 1091567616] (by decide))) = some obj ∧
      EncodeObjects 0 3 [obj] = some bytes ∧
      DecodeObjects bytes =
        ([1065353216, 1073741824, 1077936128, 1082130432, 1084227584, 1086324736, 1088421888,
          1090519040, 1091567616], true) :=
  DecodeObjects_EncodeObjects 3 3
    (GoSlice.lit [1065353216, 1073741824, 1077936128, 1082130432, 1084227584, 1086324736,
      1088421888, 1090519040, 1091567616] (by decide))
    (by decide) (by decide)

/-- C3: for a row range starting at a non-negative row and sources with non-negative
dimensions whose backing arrays hold `length` rows, `EncodeObjects(offset, length, s_1..s_k)`
is the concatenation, for `i = offset, ..., length - 1` in order, of the row-`i` blocks, the
row-`i` block being the concatenation, in argument order, of the encodings of the elements
`s_j[i*dim_j .. (i+1)*dim_j - 1]`; a `float32` is encoded as the four bytes of its bit pattern,
least significant first, a `uint8` as its byte. -/
theorem EncodeObjects_interleaved (offset length : Int) (objects : List DimSlicer)
    (h0 : 0 ≤ offset) (hdim : ∀ o ∈ objects, 0 ≤ o.Dim)
    (hcap : ∀ o ∈ objects, length * o.Dim ≤ (o.backing.cap : Int)) :
    EncodeObjects offset length objects
        = some ((List.range' offset.toNat (length.toNat - offset.toNat)).flatMap (fun i =>
            objects.flatMap (fun o =>
              ((List.range o.Dim.toNat).map
                (fun k => o.backing.elems.getD (i * o.Dim.toNat + k) 0)).flatMap o.encodeElem))) ∧
      (∀ dim s x, ∃ b0 b1 b2 b3, (DimSlicer.dimslice_float32 dim s).encodeElem x = [b0, b1, b2, b3] ∧
        b0 < 256 ∧ b1 < 256 ∧ b2 < 256 ∧ b3 < 256 ∧
        b0 + 256 * b1 + 65536 * b2 + 16777216 * b3 = x % 2 ^ 32) ∧
      (∀ dim s x, x < 256 → (DimSlicer.dimslice_uint8 dim s).encodeElem x = [x]) := by
  refine ⟨EncodeObjects_eq offset length objects h0 hdim hcap, ?_, ?_⟩
  · intro dim s x
    exact putFloat32_le x
  · intro dim s x hx
    simp [DimSlicer.encodeElem, putUint8, Nat.mod_eq_of_lt hx]

/-- Witness of C3: two rows of a `float32` source of dimension 2 (the floats 1, 2, 3, 4) and
a `uint8` source of dimension 1 (7, 9): row 0 of both sources precedes row 1. -/
theorem EncodeObjects_interleaved_witness :
    EncodeObjects 0 2
        [DimSlicer.dimslice_float32 2
          (GoSlice.lit [1065353216, 1073741824, 1077936128, 1082130432] (by decide)),
         DimSlicer.dimslice_uint8 1 (GoSlice.lit [7, 9] (by decide))]
      = some [0, 0, 128, 63, 0, 0, 0, 64, 7, 0, 0, 64, 64, 0, 0, 128, 64, 9] :=
  (EncodeObjects_interleaved 0 2
    [DimSlicer.dimslice_float32 2
      (GoSlice.lit [1065353216, 1073741824, 1077936128, 1082130432] (by decide)),
     DimSlicer.dimslice_uint8 1 (GoSlice.lit [7, 9] (by decide))]
    (by decide)
    (by intro o ho; simp at ho; rcases ho with rfl | rfl <;> simp [DimSlicer.Dim])
    (by
      intro o ho; simp at ho
      rcases ho with rfl | rfl <;>
        simp [DimSlicer.Dim, DimSlicer.backing, GoSlice.cap, GoSlice.lit])).1.trans (by decide)

/-- C4: capacity invariant. Starting from the empty emitter built by `ParticleEmitter` with
capacity `num`, after every sequence of completed ticks, whatever their intervals and random
draws, the number of live particles `Len()` is at most `num`. -/
theorem capacity_invariant {F : Type} [Float32Ops F] (origin : Vec3 F) (num : Int) (rate : F)
    (e0 e : particleEmitter F) (ticks : List (Int × (Nat → F)))
    (h0 : ParticleEmitter origin num rate = some e0) (hrun : e0.runTicks ticks = some e) :
    (e.Len : Int) ≤ num := by
  unfold ParticleEmitter at h0
  split at h0
  · rename_i hr
    simp only [Option.some.injEq] at h0
    subst h0
    have := runTicks_Len_le_aux ticks _ e hrun (by simp [particleEmitter.Len]; exact hr.1)
    rw [this.1] at this
    exact this.2
  · simp at h0

/-- Witness of C4: capacity 5, rate 100; a tick of one second that spawns 5 particles
(draw `1/25`, `n = 4`), then one that evicts a particle and spawns another (draw `0`). -/
theorem capacity_invariant_witness :
    ∃ e0 e : particleEmitter ℚ,
      ParticleEmitter ⟨0, 0, 0⟩ 5 100 = some e0 ∧
      e0.runTicks [(1000000000, fun _ => 1 / 25), (1000000000, fun _ => 0)] = some e ∧
      (e.Len : Int) ≤ 5 :=
  have hsome : ((⟨⟨0, 0, 0⟩, 100, [], 5, by decide⟩ : particleEmitter ℚ).runTicks
      [(1000000000, fun _ => 1 / 25), (1000000000, fun _ => 0)]).isSome = true := by decide!
  ⟨⟨⟨0, 0, 0⟩, 100, [], 5, by decide⟩, Option.get _ hsome, rfl, (Option.some_get hsome).symm,
    capacity_invariant ⟨0, 0, 0⟩ 5 100 _ _ _ rfl (Option.some_get hsome).symm⟩

/-- C5, as stated, fails: for capacity 5 and rate 100, a tick of one second from the empty
emitter with the random draw `r = 0` has spawn count `n = int(100 * 1 * 0) = 0` and ends with
1 live particle, not 5. -/
theorem Tick_scenario_counterexample :
    ∃ e0 e1 : particleEmitter ℚ,
      ParticleEmitter ⟨0, 0, 0⟩ 5 100 = some e0 ∧
      e0.Tick 1000000000 (fun _ => 0) = some e1 ∧ e1.Len = 1 := by
  have hmap : ((⟨⟨0, 0, 0⟩, 100, [], 5, by decide⟩ : particleEmitter ℚ).Tick 1000000000
      (fun _ => 0)).map (fun e => e.Len) = some 1 := by decide!
  obtain ⟨e1, h1, h2⟩ := Option.map_eq_some'.mp hmap
  exact ⟨_, e1, rfl, h1, h2⟩

/-- C5, amended: for an emitter with capacity `num = 5` that holds no particles, a tick whose
spawn count `n` (`int(rate * seconds * r)`, for rate 100 and one second `int(100 * r)`) is
between 0 and 4 completes with exactly `n + 1` live particles, the spawned ones, so with at
most 5, and with exactly 5 when `n = 4`. -/
theorem Tick_scenario {F : Type} [Float32Ops F] (e : particleEmitter F) (interval : Int)
    (rand : Nat → F) (hnum : e.num = 5) (hempty : e.particles = [])
    (hn0 : 0 ≤ e.spawnCount interval (rand 0)) (hn4 : e.spawnCount interval (rand 0) ≤ 4) :
    ∃ e1, e.Tick interval rand = some e1 ∧
      (e1.Len : Int) = e.spawnCount interval (rand 0) + 1 ∧ e1.Len ≤ 5 ∧
      (e.spawnCount interval (rand 0) = 4 → e1.Len = 5) ∧
      e1.particles = (e.spawned (e.spawnCount interval (rand 0)) rand).map
        (fun p => p.Tick (gravityForce.Mul (Float32Ops.ofSeconds interval))) := by
  have hx : wrapInt ((e.particles.length : Int) + 1 + e.spawnCount interval (rand 0) - e.num)
      = 1 + e.spawnCount interval (rand 0) - 5 := by
    rw [hempty, hnum]
    unfold wrapInt
    simp only [List.length_nil, Nat.cast_zero]
    omega
  obtain ⟨e1, h1⟩ := Tick_isSome e interval rand (by rw [hx, hempty]; simp; omega)
    (by rw [hx, hempty]; simp; omega)
  obtain ⟨k, hk, hkx, _, hp, _, _, _⟩ := Tick_eq_some e e1 interval rand h1
  have hk0 : k = 0 := by rw [hempty] at hk; simpa using hk
  subst hk0
  have hlen : (e1.Len : Int) = e.spawnCount interval (rand 0) + 1 := by
    unfold particleEmitter.Len
    rw [hp, hempty, List.length_map, List.drop_zero, List.nil_append, length_spawned]
    omega
  refine ⟨e1, h1, hlen, by omega, fun h4 => by omega, ?_⟩
  rw [hp, hempty]
  rfl

/-- Witness of C5 amended: rate 100, one second and the draw `1/25` give `n = 4` and 5 live
particles. -/
theorem Tick_scenario_witness :
    ∃ e1 : particleEmitter ℚ,
      (⟨⟨0, 0, 0⟩, 100, [], 5, by decide⟩ : particleEmitter ℚ).Tick 1000000000 (fun _ => 1 / 25)
        = some e1 ∧ e1.Len = 5 :=
  have h := Tick_scenario (⟨⟨0, 0, 0⟩, 100, [], 5, by decide⟩ : particleEmitter ℚ) 1000000000
    (fun _ => 1 / 25) rfl rfl (by decide!) (by decide!)
  h.elim fun e1 h1 => ⟨e1, h1.1, h1.2.2.2.1 (by decide!)⟩

/-- C6: FIFO eviction. Let a completed tick have the spawn count `n >= 0`. When
`Len() + 1 + n > num`, the particles removed are exactly the `k = Len() + 1 + n - num` oldest
ones (the front of the sequence), and the resulting sequence is the surviving old particles in
their order followed by the `n + 1` newly spawned ones (each integrated once by the tick), of
length exactly `num`. When `Len() + 1 + n <= num`, no particle is removed and the length grows
by exactly `n + 1`. -/
theorem Tick_fifo {F : Type} [Float32Ops F] (e e1 : particleEmitter F) (interval : Int)
    (rand : Nat → F) (n : Int) (hn : n = e.spawnCount interval (rand 0)) (hn0 : 0 ≤ n)
    (h : e.Tick interval rand = some e1) :
    ((e.Len : Int) + 1 + n > e.num →
      ∃ k : Nat, (k : Int) = (e.Len : Int) + 1 + n - e.num ∧ k ≤ e.Len ∧
        e1.particles = (e.particles.drop k ++ e.spawned n rand).map
          (fun p => p.Tick (gravityForce.Mul (Float32Ops.ofSeconds interval))) ∧
        ((e.spawned n rand).length : Int) = n + 1 ∧ (e1.Len : Int) = e.num) ∧
    ((e.Len : Int) + 1 + n ≤ e.num →
      e1.particles = (e.particles ++ e.spawned n rand).map
          (fun p => p.Tick (gravityForce.Mul (Float32Ops.ofSeconds interval))) ∧
        ((e.spawned n rand).length : Int) = n + 1 ∧ (e1.Len : Int) = (e.Len : Int) + (n + 1)) := by
  obtain ⟨k, hk, hkx, hg, hp, _, _, _⟩ := Tick_eq_some e e1 interval rand h
  have hr : -(2 ^ 63) ≤ e.spawnCount interval (rand 0) ∧ e.spawnCount interval (rand 0) < 2 ^ 63 :=
    wrapInt_range _
  have hnum := e.num_range
  rw [← hn] at hkx hg hp hr
  have hsp : ((e.spawned n rand).length : Int) = n + 1 := by
    rw [length_spawned]; omega
  have hlen : (e1.Len : Int) = (e.Len : Int) - k + (n + 1) := by
    unfold particleEmitter.Len
    rw [hp, List.length_map, List.length_append, List.length_drop, length_spawned]
    omega
  unfold particleEmitter.Len at hlen ⊢
  unfold wrapInt at hkx
  constructor
  · intro hgt
    have hkk : (k : Int) = (e.particles.length : Int) + 1 + n - e.num := by omega
    exact ⟨k, hkk, hk, hp, hsp, by omega⟩
  · intro hle
    have hk0 : k = 0 := by omega
    subst hk0
    rw [List.drop_zero] at hp
    exact ⟨hp, hsp, by omega⟩

/-- Witness of C6: an emitter of capacity 5 that holds 5 particles; a tick with the draw `0`
has `n = 0`, removes the oldest particle and ends with 5. -/
theorem Tick_fifo_witness :
    ∃ e1 : particleEmitter ℚ,
      (⟨⟨0, 0, 0⟩, 100,
        [⟨⟨1, 0, 0⟩, ⟨0, 0, 0⟩⟩, ⟨⟨2, 0, 0⟩, ⟨0, 0, 0⟩⟩, ⟨⟨3, 0, 0⟩, ⟨0, 0, 0⟩⟩,
          ⟨⟨4, 0, 0⟩, ⟨0, 0, 0⟩⟩, ⟨⟨5, 0, 0⟩, ⟨0, 0, 0⟩⟩], 5, by decide⟩ :
          particleEmitter ℚ).Tick 1000000000 (fun _ => 0) = some e1 ∧
      (e1.Len : Int) = 5 := by
  have hmap : ((⟨⟨0, 0, 0⟩, 100,
        [⟨⟨1, 0, 0⟩, ⟨0, 0, 0⟩⟩, ⟨⟨2, 0, 0⟩, ⟨0, 0, 0⟩⟩, ⟨⟨3, 0, 0⟩, ⟨0, 0, 0⟩⟩,
          ⟨⟨4, 0, 0⟩, ⟨0, 0, 0⟩⟩, ⟨⟨5, 0, 0⟩, ⟨0, 0, 0⟩⟩], 5, by decide⟩ :
          particleEmitter ℚ).Tick 1000000000 (fun _ => 0)).isSome = true := by decide!
  obtain ⟨e1, h1⟩ := Option.isSome_iff_exists.mp hmap
  obtain ⟨k, _, _, _, _, hlen⟩ :=
    (Tick_fifo _ e1 1000000000 (fun _ => 0) 0 (by decide!) (le_refl _) h1).1 (by decide!)
  exact ⟨e1, h1, hlen⟩

/-- C7: order law. For every node with a local transform `L` and every parent matrix `P`,
`Node.Transform(P)` is `L.Mul4(P)`, the product with the local transform as the left operand;
it is not `P.Mul4(L)`: for 4x4 integer matrices the two differ. -/
theorem Transform_order :
    (∀ (S M : Type) [Mul M] [One M] [Zero M] (s : S) (L P : M),
      (⟨some L, s⟩ : Node S M).Transform (some P) = L * P) ∧
    (∃ L P : Matrix (Fin 4) (Fin 4) ℤ,
      (⟨some L, ()⟩ : Node Unit (Matrix (Fin 4) (Fin 4) ℤ)).Transform (some P) ≠ P * L) := by
  constructor
  · intro S M _ _ _ s L P
    rfl
  · refine ⟨Matrix.of ![![1, 1, 0, 0], ![0, 1, 0, 0], ![0, 0, 1, 0], ![0, 0, 0, 1]],
      Matrix.of ![![1, 0, 0, 0], ![1, 1, 0, 0], ![0, 0, 1, 0], ![0, 0, 0, 1]], ?_⟩
    intro h
    have h00 := congrFun (congrFun h 0) 0
    simp [Node.Transform, MultiMul, MultiMul.step, Matrix.mul_apply, Fin.sum_univ_four] at h00

/-- C8: missing operands degrade to identity. `MultiMul` returns the ordered product of the
non-nil entries, the identity when the list is empty or all nil; where the identity is neutral
for the product, this is the left-to-right product of the list with each nil entry replaced
by the identity. `Node.Transform(nil)` is the identity on a node without a local transform and
`L` on a node with the local transform `L`, and `Node.Transform(P)` is `P` on a node without a
local transform. -/
theorem MultiMul_identity :
    (∀ (M : Type) [Mul M] [One M] [Zero M] (ms : List (Option M)),
      MultiMul ms =
        match ms.filterMap id with
        | [] => 1
        | m :: rest => rest.foldl (· * ·) m) ∧
    (∀ (M : Type) [MulOneClass M] [Zero M] (ms : List (Option M)),
      MultiMul ms = (ms.map (fun m => m.getD 1)).foldl (· * ·) 1) ∧
    (∀ (M : Type) [Mul M] [One M] [Zero M] (n : Nat),
      MultiMul (List.replicate n (none : Option M)) = 1) ∧
    (∀ (S M : Type) [Mul M] [One M] [Zero M] (s : S),
      (⟨none, s⟩ : Node S M).Transform none = 1) ∧
    (∀ (S M : Type) [Mul M] [One M] [Zero M] (s : S) (L : M),
      (⟨some L, s⟩ : Node S M).Transform none = L) ∧
    (∀ (S M : Type) [Mul M] [One M] [Zero M] (s : S) (P : M),
      (⟨none, s⟩ : Node S M).Transform (some P) = P) := by
  refine ⟨fun M _ _ _ ms => MultiMul_eq ms, ?_, ?_, ?_, ?_, ?_⟩
  · intro M _ _ ms
    rw [MultiMul_eq, foldl_getD_one]
    cases ms.filterMap id with
    | nil => rfl
    | cons m rest => simp
  · intro M _ _ _ n
    rw [MultiMul_eq]
    have : (List.replicate n (none : Option M)).filterMap id = [] := by
      rw [List.filterMap_eq_nil_iff]
      intro m hm
      rw [(List.mem_replicate.mp hm).2]
      rfl
    rw [this]
  · intro S M _ _ _ s
    rfl
  · intro S M _ _ _ s L
    rfl
  · intro S M _ _ _ s P
    rfl

/-- C9: for every `N >= 1`, a scene of `N` plain nodes that share the shader `s`, drawn once
with a fresh frame context, calls `Use` of `s` exactly once and `bindShader` for `s` exactly
once, so that each of the camera uniforms `cameraPos`, `view` and `projection` is uploaded
exactly once, whatever `N` is; no other shader is used or bound. -/
theorem Draw_shared_shader {S M : Type} [DecidableEq S] (s : S) (scene : sliceScene S M)
    (hN : 1 ≤ scene.nodes.length) (hs : ∀ node ∈ scene.nodes, node.shader = s) :
    (∀ s1, useCount s1 (scene.Draw FrameContext.fresh) = if s1 = s then 1 else 0) ∧
    (∀ s1, bindCount s1 (scene.Draw FrameContext.fresh) = if s1 = s then 1 else 0) ∧
    uploadCount s "cameraPos" (scene.Draw FrameContext.fresh) = 1 ∧
    uploadCount s "view" (scene.Draw FrameContext.fresh) = 1 ∧
    uploadCount s "projection" (scene.Draw FrameContext.fresh) = 1 := by
  obtain ⟨nodes, tr⟩ := scene
  cases nodes with
  | nil => simp at hN
  | cons node rest =>
    simp only at hs
    rw [Draw_shared_eq s tr node rest hs]
    unfold useCount bindCount uploadCount
    refine ⟨?_, ?_, ?_, ?_, ?_⟩
    · intro s1
      rw [List.count_append, count_nodes_Draw _ _ _ (by simp) (by simp) (by simp)]
      by_cases h : s1 = s
      · subst h; simp [FrameContext.bindShader]
      · have h2 : ¬ s = s1 := fun e => h e.symm
        simp [FrameContext.bindShader, h, h2, List.count_cons]
    · intro s1
      rw [List.count_append, count_nodes_Draw _ _ _ (by simp) (by simp) (by simp)]
      by_cases h : s1 = s
      · subst h; simp [FrameContext.bindShader, List.count_cons]
      · have h2 : ¬ s = s1 := fun e => h e.symm
        simp [FrameContext.bindShader, h, h2, List.count_cons]
    · rw [List.count_append, count_nodes_Draw _ _ _ (by simp) (by simp) (by simp)]
      simp [FrameContext.bindShader, List.count_cons]
    · rw [List.count_append, count_nodes_Draw _ _ _ (by simp) (by simp) (by simp)]
      simp [FrameContext.bindShader, List.count_cons]
    · rw [List.count_append, count_nodes_Draw _ _ _ (by simp) (by simp) (by simp)]
      simp [FrameContext.bindShader, List.count_cons]

/-- Witness of C9: three nodes that share the shader `7`. -/
theorem Draw_shared_shader_witness :
    useCount 7 (sliceScene.Draw
        (⟨[⟨none, 7⟩, ⟨some 1, 7⟩, ⟨none, 7⟩], none⟩ : sliceScene Nat Nat) FrameContext.fresh) = 1 ∧
      bindCount 7 (sliceScene.Draw
        (⟨[⟨none, 7⟩, ⟨some 1, 7⟩, ⟨none, 7⟩], none⟩ : sliceScene Nat Nat) FrameContext.fresh) = 1 :=
  have h := Draw_shared_shader 7
    (⟨[⟨none, 7⟩, ⟨some 1, 7⟩, ⟨none, 7⟩], none⟩ : sliceScene Nat Nat) (by decide)
    (by
      intro node hn
      simp only [List.mem_cons, List.mem_singleton, List.not_mem_nil, or_false] at hn
      rcases hn with rfl | rfl | rfl <;> rfl)
  ⟨by simpa using h.1 7, by simpa using h.2.1 7⟩

/-- C10 at its failing input: in a scene whose nodes use the shaders `1`, `2`, `2` in this
order, drawn with a fresh frame context, `bindShader` is called twice for the shader `2`, at
the second and again at the third node (the shader cache holds the first shader of the frame
only), while it is called once for the shader `1`. -/
theorem Draw_second_shader_bound_twice :
    bindCount 2 (sliceScene.Draw
        (⟨[⟨none, 1⟩, ⟨none, 2⟩, ⟨none, 2⟩], none⟩ : sliceScene Nat Nat) FrameContext.fresh) = 2 ∧
      bindCount 1 (sliceScene.Draw
        (⟨[⟨none, 1⟩, ⟨none, 2⟩, ⟨none, 2⟩], none⟩ : sliceScene Nat Nat) FrameContext.fresh) = 1 ∧
      useCount 2 (sliceScene.Draw
        (⟨[⟨none, 1⟩, ⟨none, 2⟩, ⟨none, 2⟩], none⟩ : sliceScene Nat Nat) FrameContext.fresh) = 1 := by
  decide

/-- C11: insertion order is draw order. For every sequence `items` of `Add` calls on a scene
made by `NewScene`, a following `Draw` calls `Draw` on the added nodes, each once per `Add`,
in the order of the `Add` calls, and on no other node; accordingly the draws of the shapes
appear in the frame in this order. -/
theorem Draw_insertion_order {S M : Type} [DecidableEq S] (items : List (Node S M))
    (frame : FrameContext S) :
    ((items.foldl sliceScene.Add NewScene).nodeDraws frame).map Prod.fst = items ∧
    ((items.foldl sliceScene.Add NewScene).nodeDraws frame).map Prod.snd
      = items.map (fun n => ⟨n.Shader, none⟩) ∧
    ((items.foldl sliceScene.Add NewScene).Draw frame).filter Call.isShapeDraw
      = items.map (fun n => Call.ShapeDraw n.Shader) := by
  obtain ⟨h1, h2⟩ := foldl_Add_nodes items (NewScene : sliceScene S M)
  unfold sliceScene.nodeDraws sliceScene.Draw
  rw [h1, h2, foldl_visitNode, foldl_drawNode_ShapeDraw]
  simp [NewScene, Function.comp_def]

/-- C12, as stated, fails: a camera with yaw and pitch `0` and the delta whose `X` component is
NaN. With the comparisons of IEEE-754 (`ratOps`) the sum `0 + NaN` is NaN, neither
`pitch > halfPi` nor `pitch < -halfPi` holds, and `Rotate` leaves the pitch NaN, which lies
in no interval: neither `-halfPi <= pitch` nor `pitch <= halfPi` holds. A later call with the
finite delta `(1, 0, 0)` leaves the pitch NaN as well. -/
theorem Rotate_pitch_clamped_counterexample :
    ((⟨(), ⟨some 0, some 0, some 0⟩, some 0, some 0, ⟨some 1, some 0, some 0⟩,
        ⟨some 0, some 1, some 0⟩, ⟨some 0, some 0, some 1⟩⟩ :
        EulerCamera (Option ℚ) (Option ℚ) Unit).Rotate ratOps ⟨none, some 0, some 0⟩).pitch
      = none ∧
    ratOps.isNaN none = true ∧
    ratOps.gt none ratOps.halfPi = false ∧
    ratOps.lt none ratOps.negHalfPi = false ∧
    ratOps.le ratOps.negHalfPi none = false ∧
    ratOps.le none ratOps.halfPi = false ∧
    ((⟨(), ⟨some 0, some 0, some 0⟩, some 0, some 0, ⟨some 1, some 0, some 0⟩,
        ⟨some 0, some 1, some 0⟩, ⟨some 0, some 0, some 1⟩⟩ :
        EulerCamera (Option ℚ) (Option ℚ) Unit).rotates ratOps
        [⟨none, some 0, some 0⟩, ⟨some 1, some 0, some 0⟩]).pitch = none := by
  decide!

/-- C12, amended: for every state of the Euler camera and every sequence of `Rotate` calls with
arbitrary deltas, whatever the rounding of the `float64` sum, the pitch after each call (after
the last call of every non-empty sequence) is neither greater than `halfPi` nor less than
`-halfPi`; it is NaN exactly when the sum `pitch + float64(delta.X)` formed by that call is
NaN; when that sum is not NaN the pitch lies in the closed interval `[-halfPi, halfPi]`, and
when it is NaN the pitch lies in no interval. The yaw is the value obtained from the initial
yaw by the sums `yaw + float64(delta.Y)` taken call by call: it is not clamped. -/
theorem Rotate_pitch_clamped {D F P : Type} (ops : EulerOps D F) (h : ops.IEEE)
    (c : EulerCamera D F P) (deltas : List (Vec3 F)) (delta : Vec3 F) :
    ops.gt (c.rotates ops (deltas ++ [delta])).pitch ops.halfPi = false ∧
    ops.lt (c.rotates ops (deltas ++ [delta])).pitch ops.negHalfPi = false ∧
    ops.isNaN (c.rotates ops (deltas ++ [delta])).pitch
      = ops.isNaN (ops.add (c.rotates ops deltas).pitch (ops.toFloat64 delta.x)) ∧
    (ops.isNaN (ops.add (c.rotates ops deltas).pitch (ops.toFloat64 delta.x)) = false →
      ops.le ops.negHalfPi (c.rotates ops (deltas ++ [delta])).pitch = true ∧
      ops.le (c.rotates ops (deltas ++ [delta])).pitch ops.halfPi = true) ∧
    (ops.isNaN (ops.add (c.rotates ops deltas).pitch (ops.toFloat64 delta.x)) = true →
      ops.le ops.negHalfPi (c.rotates ops (deltas ++ [delta])).pitch = false ∧
      ops.le (c.rotates ops (deltas ++ [delta])).pitch ops.halfPi = false) ∧
    (c.rotates ops (deltas ++ [delta])).yaw
      = (deltas ++ [delta]).foldl (fun y d => ops.add y (ops.toFloat64 d.y)) c.yaw := by
  have hp := Rotate_pitch_facts ops h (c.rotates ops deltas) delta
  rw [← rotates_append] at hp
  exact ⟨hp.1, hp.2.1, hp.2.2.1, hp.2.2.2.1, hp.2.2.2.2, rotates_yaw ops _ c⟩

/-- Witness of C12 amended: in `ratOps`, where `halfPi = 355/226`, two calls that each add 1
to the pitch and 2 and 3 to the yaw leave the pitch at `355/226`, inside the interval, and the
yaw at `5`. -/
theorem Rotate_pitch_clamped_witness :
    ((⟨(), ⟨some 0, some 0, some 0⟩, some 0, some 0, ⟨some 1, some 0, some 0⟩,
        ⟨some 0, some 1, some 0⟩, ⟨some 0, some 0, some 1⟩⟩ :
        EulerCamera (Option ℚ) (Option ℚ) Unit).rotates ratOps
        ([⟨some 1, some 2, some 0⟩] ++ [⟨some 1, some 3, some 0⟩])).pitch = some (355 / 226) ∧
    ratOps.le ratOps.negHalfPi
      ((⟨(), ⟨some 0, some 0, some 0⟩, some 0, some 0, ⟨some 1, some 0, some 0⟩,
        ⟨some 0, some 1, some 0⟩, ⟨some 0, some 0, some 1⟩⟩ :
        EulerCamera (Option ℚ) (Option ℚ) Unit).rotates ratOps
        ([⟨some 1, some 2, some 0⟩] ++ [⟨some 1, some 3, some 0⟩])).pitch = true ∧
    ratOps.le
      ((⟨(), ⟨some 0, some 0, some 0⟩, some 0, some 0, ⟨some 1, some 0, some 0⟩,
        ⟨some 0, some 1, some 0⟩, ⟨some 0, some 0, some 1⟩⟩ :
        EulerCamera (Option ℚ) (Option ℚ) Unit).rotates ratOps
        ([⟨some 1, some 2, some 0⟩] ++ [⟨some 1, some 3, some 0⟩])).pitch ratOps.halfPi = true ∧
    ((⟨(), ⟨some 0, some 0, some 0⟩, some 0, some 0, ⟨some 1, some 0, some 0⟩,
        ⟨some 0, some 1, some 0⟩, ⟨some 0, some 0, some 1⟩⟩ :
        EulerCamera (Option ℚ) (Option ℚ) Unit).rotates ratOps
        ([⟨some 1, some 2, some 0⟩] ++ [⟨some 1, some 3, some 0⟩])).yaw = some 5 :=
  have h := Rotate_pitch_clamped ratOps ratOps_IEEE
    (⟨(), ⟨some 0, some 0, some 0⟩, some 0, some 0, ⟨some 1, some 0, some 0⟩,
      ⟨some 0, some 1, some 0⟩, ⟨some 0, some 0, some 1⟩⟩ :
      EulerCamera (Option ℚ) (Option ℚ) Unit)
    [⟨some 1, some 2, some 0⟩] ⟨some 1, some 3, some 0⟩
  ⟨by decide!, (h.2.2.2.1 (by decide!)).1, (h.2.2.2.1 (by decide!)).2,
    h.2.2.2.2.2.trans (by decide!)⟩

/-- C14, as stated, fails: a shape of one vertex `(1, 2, 3)` with the texture coordinates
`(0.5, 0.25)` and the normal `(0, 1, 0)` (as bit patterns). `Bytes` encodes a row of 32 bytes,
the stride that `Draw` passes, in which the normal stands at the byte offset 20, after the
texture coordinates; `Draw` passes the offset `vertexDim * vecSize = 12` for `vertNormal`,
where the row holds the texture coordinates. -/
theorem Draw_normal_offset_counterexample :
    (⟨GoSlice.lit [1065353216, 1073741824, 1077936128] (by decide),
        GoSlice.lit [1056964608, 1048576000] (by decide),
        GoSlice.lit [0, 1065353216, 0] (by decide), GoSlice.lit [] (by decide)⟩ :
        StaticShape).Bytes
      = some [0, 0, 128, 63, 0, 0, 0, 64, 0, 0, 64, 64,
          0, 0, 0, 63, 0, 0, 128, 62,
          0, 0, 0, 0, 0, 0, 128, 63, 0, 0, 0, 0] ∧
    ((⟨GoSlice.lit [1065353216, 1073741824, 1077936128] (by decide),
        GoSlice.lit [1056964608, 1048576000] (by decide),
        GoSlice.lit [0, 1065353216, 0] (by decide), GoSlice.lit [] (by decide)⟩ :
        StaticShape).objects.map (fun objects => attribOffset objects 2)) = some 20 ∧
    (⟨GoSlice.lit [1065353216, 1073741824, 1077936128] (by decide),
        GoSlice.lit [1056964608, 1048576000] (by decide),
        GoSlice.lit [0, 1065353216, 0] (by decide), GoSlice.lit [] (by decide)⟩ :
        StaticShape).Draw
      = [GLCall.BindBuffer "ARRAY_BUFFER", GLCall.EnableVertexAttribArray "vertCoord",
          GLCall.VertexAttribPointer "vertCoord" 3 32 0,
          GLCall.EnableVertexAttribArray "vertNormal",
          GLCall.VertexAttribPointer "vertNormal" 3 32 12,
          GLCall.DrawArrays 0 1,
          GLCall.DisableVertexAttribArray "vertCoord",
          GLCall.DisableVertexAttribArray "vertNormal"] ∧
    [0, 1065353216, 0].flatMap putFloat32 = [0, 0, 0, 0, 0, 0, 128, 63, 0, 0, 0, 0] := by
  decide

/-- C14, amended: for every `StaticShape` without texture coordinates that has normals (at
least `Len()` rows of them), `Bytes` returns `Len()` rows of `Stride()` bytes, and in each row
`i` the 12 bytes from the byte offset `vertexDim * vecSize = 12` on are the encoding of the
three normal components of row `i`: the normals are the source at position 1, at the offset
that `Draw` passes to `VertexAttribPointer` for `vertNormal`. For every shape, with or without
texture coordinates, every encoded row has `Stride()` bytes, the stride that `Draw` passes. -/
theorem Draw_normal_offset (shape : StaticShape) (hn : shape.normals.len > 0)
    (ht : shape.textures.len = 0)
    (hcap : normalDim * shape.Len ≤ (shape.normals.cap : Int)) :
    (∃ b, shape.Bytes = some b ∧ (b.length : Int) = shape.Len * shape.Stride ∧
      ∀ i : Nat, (i : Int) < shape.Len →
        (b.drop ((i : Int) * shape.Stride + vertexDim * vecSize).toNat).take
            (normalDim * vecSize).toNat
          = [shape.normals.elems.getD (i * 3) 0, shape.normals.elems.getD (i * 3 + 1) 0,
              shape.normals.elems.getD (i * 3 + 2) 0].flatMap putFloat32) ∧
    shape.sources.get? 1 = some (DimSlicer.dimslice_float32 normalDim shape.normals) ∧
    attribOffset shape.sources 1 = vertexDim * vecSize ∧
    GLCall.VertexAttribPointer "vertNormal" normalDim shape.Stride (vertexDim * vecSize)
      ∈ shape.Draw ∧
    (∀ (s : StaticShape) (i : Nat), ((rowBlock s.sources i).length : Int) = s.Stride ∧
      GLCall.VertexAttribPointer "vertCoord" vertexDim s.Stride 0 ∈ s.Draw ∧
      (s.normals.len > 0 →
        GLCall.VertexAttribPointer "vertNormal" normalDim s.Stride (vertexDim * vecSize)
          ∈ s.Draw)) := by
  have hdraw : ∀ s : StaticShape, s.normals.len > 0 →
      GLCall.VertexAttribPointer "vertNormal" normalDim s.Stride (vertexDim * vecSize)
        ∈ s.Draw := by
    intro s hs
    unfold StaticShape.Draw
    simp [hs]
  refine ⟨⟨interleaved 0 shape.Len.toNat shape.sources, ?_, ?_, ?_⟩, ?_, ?_, hdraw shape hn, ?_⟩
  · have h := BytesOffset_some shape 0 (le_refl 0) (fun h => absurd h (by omega)) (fun _ => hcap)
    rw [Int.toNat_zero] at h
    exact h
  · have h := length_interleaved 0 (shape.Len.toNat - 0) shape.sources (sources_Dim_nonneg shape)
    have hL : 0 ≤ shape.Len := by rw [Len_eq]; omega
    unfold interleaved
    rw [h, Stride_eq_rowSize, Nat.sub_zero, Int.toNat_of_nonneg hL]
  · intro i hi
    exact Bytes_normals_at shape hn ht i hi
  · rw [sources_no_textures shape hn ht]
    rfl
  · rw [sources_no_textures shape hn ht]
    rfl
  · intro s i
    refine ⟨?_, ?_, hdraw s⟩
    · rw [Stride_eq_rowSize]
      exact length_rowBlock s.sources i (sources_Dim_nonneg s)
    · unfold StaticShape.Draw
      simp

/-- Witness of C14 amended: a shape of two vertices with the values 1 to 6 and the normals
with the values 7 to 12, without texture coordinates: in the second row of `Bytes` the 12 bytes
from the offset `24 + 12` on are the encoding of the normal `(10, 11, 12)`. -/
theorem Draw_normal_offset_witness :
    ∃ b, (⟨GoSlice.lit [1, 2, 3, 4, 5, 6] (by decide), GoSlice.lit [] (by decide),
        GoSlice.lit [7, 8, 9, 10, 11, 12] (by decide), GoSlice.lit [] (by decide)⟩ :
        StaticShape).Bytes = some b ∧
      (b.drop 36).take 12 = [10, 0, 0, 0, 11, 0, 0, 0, 12, 0, 0, 0] :=
  (Draw_normal_offset
    (⟨GoSlice.lit [1, 2, 3, 4, 5, 6] (by decide), GoSlice.lit [] (by decide),
        GoSlice.lit [7, 8, 9, 10, 11, 12] (by decide), GoSlice.lit [] (by decide)⟩ : StaticShape)
    (by decide) (by decide) (by decide)).1.elim
    (fun b h => ⟨b, h.1, (h.2.2 1 (by decide)).trans (by decide)⟩)

/-- C15, as stated, fails: with the negative offset `-1`, the length `0` and one source of
dimension `0`, `EncodeObjects` does not panic; it returns the empty byte sequence. -/
theorem EncodeObjects_out_of_bounds_counterexample :
    (-1 : Int) < 0 ∧
    EncodeObjects (-1) 0 [DimSlicer.dimslice_float32 0 (GoSlice.lit [] (by decide))] = some [] := by
  decide

/-- C15, amended: for every `offset < length`, `EncodeObjects` panics and returns no bytes
(a) whenever the backing array of some source holds fewer than `length * dim` elements, where
`length * dim` fits a Go `int`, and (b) whenever `offset` is negative and some source has a
dimension `dim >= 1`, where `offset * dim` fits a Go `int`. -/
theorem EncodeObjects_out_of_bounds (offset length : Int) (objects : List DimSlicer)
    (hlt : offset < length) :
    ((∃ o ∈ objects, (o.backing.cap : Int) < length * o.Dim ∧ length * o.Dim < 2 ^ 63) →
      EncodeObjects offset length objects = none) ∧
    ((offset < 0 ∧ ∃ o ∈ objects, 1 ≤ o.Dim ∧ -(2 ^ 63) ≤ offset * o.Dim) →
      EncodeObjects offset length objects = none) := by
  constructor
  · rintro ⟨o, ho, hcap, hfit⟩
    exact EncodeObjects_none_of_short offset length objects hlt o ho hcap hfit
  · rintro ⟨hneg, o, ho, hdim, hfit⟩
    exact EncodeObjects_none_of_neg offset length objects hlt hneg o ho hdim hfit

/-- Witness of C15 amended: two rows of dimension 3 asked of a source of 4 elements, and a
range that starts at row `-1`. -/
theorem EncodeObjects_out_of_bounds_witness :
    EncodeObjects 0 2 [DimSlicer.dimslice_float32 3 (GoSlice.lit [1, 2, 3, 4] (by decide))] = none ∧
    EncodeObjects (-1) 1
      [DimSlicer.dimslice_float32 3 (GoSlice.lit [1, 2, 3, 4] (by decide))] = none :=
  ⟨(EncodeObjects_out_of_bounds 0 2
      [DimSlicer.dimslice_float32 3 (GoSlice.lit [1, 2, 3, 4] (by decide))] (by decide)).1
      ⟨_, List.mem_singleton.mpr rfl, by decide, by decide⟩,
    (EncodeObjects_out_of_bounds (-1) 1
      [DimSlicer.dimslice_float32 3 (GoSlice.lit [1, 2, 3, 4] (by decide))] (by decide)).2
      ⟨by decide, _, List.mem_singleton.mpr rfl, by decide, by decide⟩⟩

/-- C16, as stated, fails: a shape whose `vertices` hold 4 values (not a multiple of 3) and
which has neither texture coordinates nor normals; `BytesOffset(0)` does not abort, it returns
the 12 bytes of the first three values and leaves the fourth out. -/
theorem BytesOffset_mismatch_counterexample :
    (4 : Nat) % 3 ≠ 0 ∧
    (⟨GoSlice.lit [1065353216, 1073741824, 1077936128, 1082130432] (by decide),
        GoSlice.lit [] (by decide), GoSlice.lit [] (by decide), GoSlice.lit [] (by decide)⟩ :
        StaticShape).BytesOffset 0
      = some [0, 0, 128, 63, 0, 0, 0, 64, 0, 0, 64, 64] := by
  decide

/-- C16, amended: `StaticShape.BytesOffset(0)` aborts exactly when `textures` is present and
its backing array holds fewer than `2 * Len()` elements, or `normals` is present and its
backing array holds fewer than `3 * Len()` elements. In every other case it returns the
`Len() * Stride()` bytes of the first `Len() = len(vertices) / 3` rows of the present arrays;
values beyond these rows are left out without an abort. -/
theorem BytesOffset_abort_iff (shape : StaticShape) :
    (shape.BytesOffset 0 = none ↔
      (shape.textures.len > 0 ∧ (shape.textures.cap : Int) < textureDim * shape.Len) ∨
      (shape.normals.len > 0 ∧ (shape.normals.cap : Int) < normalDim * shape.Len)) ∧
    (∀ b, shape.BytesOffset 0 = some b →
      b = interleaved 0 shape.Len.toNat shape.sources ∧
      (b.length : Int) = shape.Len * shape.Stride) := by
  have hL : 0 ≤ shape.Len := by rw [Len_eq]; omega
  by_cases hbad : (shape.textures.len > 0 ∧ (shape.textures.cap : Int) < textureDim * shape.Len) ∨
      (shape.normals.len > 0 ∧ (shape.normals.cap : Int) < normalDim * shape.Len)
  · have hnone : shape.BytesOffset 0 = none := by
      rcases hbad with ⟨hp, hc⟩ | ⟨hp, hc⟩
      · apply BytesOffset_none_textures shape 0 _ hp hc
        unfold textureDim at hc
        omega
      · apply BytesOffset_none_normals shape 0 _ hp hc
        unfold normalDim at hc
        omega
    refine ⟨⟨fun _ => hbad, fun _ => hnone⟩, ?_⟩
    intro b hb
    rw [hnone] at hb
    simp at hb
  · have hsome := BytesOffset_some shape 0 (le_refl _)
      (fun hp => by
        by_contra hc
        exact hbad (Or.inl ⟨hp, not_le.mp hc⟩))
      (fun hp => by
        by_contra hc
        exact hbad (Or.inr ⟨hp, not_le.mp hc⟩))
    refine ⟨⟨fun h => ?_, fun h => absurd h hbad⟩, ?_⟩
    · rw [hsome] at h
      simp at h
    · intro b hb
      rw [hsome, Int.toNat_zero] at hb
      simp only [Option.some.injEq] at hb
      subst hb
      refine ⟨rfl, ?_⟩
      unfold interleaved
      rw [length_interleaved 0 _ shape.sources (sources_Dim_nonneg shape), Stride_eq_rowSize,
        Nat.sub_zero, Int.toNat_of_nonneg hL]

/-- Witness of C16 amended: two vertices with normals for one vertex only; `BytesOffset(0)`
aborts. -/
theorem BytesOffset_abort_iff_witness :
    (⟨GoSlice.lit [1, 2, 3, 4, 5, 6] (by decide), GoSlice.lit [] (by decide),
        GoSlice.lit [7, 8, 9] (by decide), GoSlice.lit [] (by decide)⟩ :
        StaticShape).BytesOffset 0 = none :=
  (BytesOffset_abort_iff
    (⟨GoSlice.lit [1, 2, 3, 4, 5, 6] (by decide), GoSlice.lit [] (by decide),
        GoSlice.lit [7, 8, 9] (by decide), GoSlice.lit [] (by decide)⟩ : StaticShape)).1.mpr
    (Or.inr (by decide))

/-- C17: partial encoding is the tail of the full encoding. For every `StaticShape` whose
present texture and normal arrays hold `Len()` rows (at least; in particular exactly) and
every `n` with `0 <= n <= Len()`, `Bytes()` returns exactly `Len() * Stride()` bytes and
`BytesOffset(n)` returns these bytes without the first `n * Stride()`; `DynamicShape.Buffer(n)`
writes them at the byte offset `n * Stride()` (and writes nothing when `n = Len()`). -/
theorem BytesOffset_tail (shape : StaticShape) (n : Int)
    (ht : shape.textures.len > 0 → textureDim * shape.Len ≤ (shape.textures.cap : Int))
    (hn : shape.normals.len > 0 → normalDim * shape.Len ≤ (shape.normals.cap : Int))
    (h0 : 0 ≤ n) (hle : n ≤ shape.Len) :
    ∃ b, shape.Bytes = some b ∧ (b.length : Int) = shape.Len * shape.Stride ∧
      shape.BytesOffset n = some (b.drop (n * shape.Stride).toNat) ∧
      DynamicShape.Buffer shape n = some
        (if n = shape.Len then [GLCall.BindBuffer "ARRAY_BUFFER"]
          else [GLCall.BindBuffer "ARRAY_BUFFER",
            GLCall.BufferSubData (wrapInt (n * shape.Stride))
              (b.drop (n * shape.Stride).toNat)]) ∧
      (shape.Len * shape.Stride < 2 ^ 63 → wrapInt (n * shape.Stride) = n * shape.Stride) := by
  have hL : 0 ≤ shape.Len := by rw [Len_eq]; omega
  have hS : 12 ≤ shape.Stride := by
    unfold StaticShape.Stride vertexDim textureDim normalDim vecSize
    simp only
    split <;> split <;> omega
  have hb0 := BytesOffset_some shape 0 (le_refl _) ht hn
  rw [Int.toNat_zero] at hb0
  have hbn := BytesOffset_some shape n h0 ht hn
  have hlen : ((interleaved 0 shape.Len.toNat shape.sources).length : Int)
      = shape.Len * shape.Stride := by
    unfold interleaved
    rw [length_interleaved 0 _ shape.sources (sources_Dim_nonneg shape), Stride_eq_rowSize,
      Nat.sub_zero, Int.toNat_of_nonneg hL]
  have hdrop : interleaved n.toNat shape.Len.toNat shape.sources
      = (interleaved 0 shape.Len.toNat shape.sources).drop (n * shape.Stride).toNat := by
    rw [interleaved_drop n.toNat shape.Len.toNat shape.sources (by omega)
      (sources_Dim_nonneg shape), Stride_eq_rowSize, Int.toNat_of_nonneg h0]
  have hprod : n * shape.Stride ≤ shape.Len * shape.Stride :=
    mul_le_mul_of_nonneg_right hle (by omega)
  have hprod0 : 0 ≤ n * shape.Stride := mul_nonneg h0 (by omega)
  refine ⟨_, hb0, hlen, by rw [hbn, hdrop], ?_, ?_⟩
  · unfold DynamicShape.Buffer
    rw [hbn, hdrop]
    simp only
    by_cases hnL : n = shape.Len
    · have hAB : n * shape.Stride = shape.Len * shape.Stride := by rw [hnL]
      rw [if_pos hnL, if_pos]
      rw [List.length_drop]
      generalize shape.Len * shape.Stride = B at hlen hAB
      generalize n * shape.Stride = A at hAB hprod0 ⊢
      omega
    · have hAB : n * shape.Stride < shape.Len * shape.Stride :=
        mul_lt_mul_of_pos_right (lt_of_le_of_ne hle hnL) (by omega)
      rw [if_neg hnL, if_neg]
      rw [List.length_drop]
      generalize shape.Len * shape.Stride = B at hlen hAB
      generalize n * shape.Stride = A at hAB hprod0 ⊢
      omega
  · intro hfit
    exact wrapInt_of_range _ hprod0 (lt_of_le_of_lt hprod hfit)

/-- Witness of C17: two vertices with normals; `BytesOffset(1)` is `Bytes()` without its first
24 bytes. -/
theorem BytesOffset_tail_witness :
    ∃ b, (⟨GoSlice.lit [1, 2, 3, 4, 5, 6] (by decide), GoSlice.lit [] (by decide),
        GoSlice.lit [7, 8, 9, 10, 11, 12] (by decide), GoSlice.lit [] (by decide)⟩ :
        StaticShape).Bytes = some b ∧
      (⟨GoSlice.lit [1, 2, 3, 4, 5, 6] (by decide), GoSlice.lit [] (by decide),
        GoSlice.lit [7, 8, 9, 10, 11, 12] (by decide), GoSlice.lit [] (by decide)⟩ :
        StaticShape).BytesOffset 1 = some (b.drop 24) :=
  (BytesOffset_tail
    (⟨GoSlice.lit [1, 2, 3, 4, 5, 6] (by decide), GoSlice.lit [] (by decide),
        GoSlice.lit [7, 8, 9, 10, 11, 12] (by decide), GoSlice.lit [] (by decide)⟩ : StaticShape)
    1 (by decide) (by decide) (by decide) (by decide)).elim
    (fun b h => ⟨b, h.1, h.2.2.1⟩)

/-- C18 at its failing input: for an emitter that holds one particle, `Draw` passes the vertex
count `1 * particleLen / vertexDim = 9` to `DrawArrays`, while `Bytes` encodes the 9 values of
`Vertices()`, 36 bytes, which are `36 / Stride() = 3` vertices; for every emitter `Bytes`
encodes `36 * Len()` bytes, that is `3 * Len()` vertices. -/
theorem Draw_vertex_count_counterexample {F : Type} [VertexOps F] (e : particleEmitter F)
    (p : particle F) :
    ({ e with particles := [p] } : particleEmitter F).Draw
      = [GLCall.BindBuffer "ARRAY_BUFFER", GLCall.EnableVertexAttribArray "vertCoord",
          GLCall.VertexAttribPointer "vertCoord" 3 12 0, GLCall.DrawArrays 0 9,
          GLCall.DisableVertexAttribArray "vertCoord"] ∧
    (({ e with particles := [p] } : particleEmitter F).Bytes.length : Int)
      / ({ e with particles := [p] } : particleEmitter F).Stride = 3 ∧
    e.Bytes.length = 36 * e.Len ∧ e.Stride = 12 := by
  refine ⟨?_, ?_, length_Bytes e, rfl⟩
  · simp only [particleEmitter.Draw, particleEmitter.Stride, particleEmitter.Len,
      List.length_singleton]
    decide
  · rw [length_Bytes]
    simp only [particleEmitter.Stride, particleEmitter.Len, List.length_singleton]
    decide

/-- C19: `MoveTo(p)` sets the origin to `p` and leaves the particles, the rate and the
capacity as they are. For two runs from the same state with the same random draws, one with
`MoveTo(p)` before the `Tick` and one without, the tick completes in both or in neither; when
it completes, the same `k` oldest particles are removed in both, every particle that was live
before and stays live has the same position and velocity after the tick in both, and the
particles spawned by the tick in the run with `MoveTo(p)` are created at the position `p`
(with the same velocities as in the other run). -/
theorem MoveTo_Tick {F : Type} [Float32Ops F] (e : particleEmitter F) (pos : Vec3 F)
    (interval : Int) (rand : Nat → F) :
    (e.MoveTo pos).origin = pos ∧ (e.MoveTo pos).particles = e.particles ∧
    (e.MoveTo pos).rate = e.rate ∧ (e.MoveTo pos).num = e.num ∧
    ((e.MoveTo pos).Tick interval rand).isSome = (e.Tick interval rand).isSome ∧
    (∀ a b, e.Tick interval rand = some a → (e.MoveTo pos).Tick interval rand = some b →
      ∃ k : Nat, k ≤ e.particles.length ∧
        a.particles = (e.particles.drop k).map
            (fun p => p.Tick (gravityForce.Mul (Float32Ops.ofSeconds interval)))
          ++ (e.spawned (e.spawnCount interval (rand 0)) rand).map
            (fun p => p.Tick (gravityForce.Mul (Float32Ops.ofSeconds interval))) ∧
        b.particles = (e.particles.drop k).map
            (fun p => p.Tick (gravityForce.Mul (Float32Ops.ofSeconds interval)))
          ++ ((e.MoveTo pos).spawned (e.spawnCount interval (rand 0)) rand).map
            (fun p => p.Tick (gravityForce.Mul (Float32Ops.ofSeconds interval))) ∧
        (∀ q ∈ (e.MoveTo pos).spawned (e.spawnCount interval (rand 0)) rand,
          q.position = pos) ∧
        ((e.MoveTo pos).spawned (e.spawnCount interval (rand 0)) rand).map (fun q => q.velocity)
          = (e.spawned (e.spawnCount interval (rand 0)) rand).map (fun q => q.velocity)) := by
  refine ⟨rfl, rfl, rfl, rfl, MoveTo_Tick_isSome e pos interval rand, ?_⟩
  intro a b ha hb
  obtain ⟨k, hk, hkx, _, hpa, _, _, _⟩ := Tick_eq_some e a interval rand ha
  obtain ⟨k2, _, hkx2, _, hpb, _, _, _⟩ := Tick_eq_some (e.MoveTo pos) b interval rand hb
  have hkk : k2 = k := by
    have h1 : (k2 : Int) = (k : Int) := by rw [hkx, hkx2]; rfl
    exact_mod_cast h1
  subst hkk
  refine ⟨k2, hk, ?_, ?_, ?_, ?_⟩
  · rw [hpa, List.map_append]
  · rw [hpb, List.map_append]
    rfl
  · intro q hq
    simp only [particleEmitter.spawned, particleEmitter.MoveTo, List.mem_map] at hq
    obtain ⟨i, _, rfl⟩ := hq
    rfl
  · simp [particleEmitter.spawned, particleEmitter.MoveTo, RandomParticle]

/-- Witness of C19: capacity 5, rate 100, one particle at `(1, 0, 0)`; a tick of one second
with the draw `0`, with and without `MoveTo((7, 7, 7))` before it: both complete, with two
particles. -/
theorem MoveTo_Tick_witness :
    ∃ a b : particleEmitter ℚ,
      (⟨⟨0, 0, 0⟩, 100, [⟨⟨1, 0, 0⟩, ⟨0, 0, 0⟩⟩], 5, by decide⟩ : particleEmitter ℚ).Tick
        1000000000 (fun _ => 0) = some a ∧
      ((⟨⟨0, 0, 0⟩, 100, [⟨⟨1, 0, 0⟩, ⟨0, 0, 0⟩⟩], 5, by decide⟩ : particleEmitter ℚ).MoveTo
        ⟨7, 7, 7⟩).Tick 1000000000 (fun _ => 0) = some b ∧
      a.particles.length = b.particles.length := by
  have h1 : ((⟨⟨0, 0, 0⟩, 100, [⟨⟨1, 0, 0⟩, ⟨0, 0, 0⟩⟩], 5, by decide⟩ :
      particleEmitter ℚ).Tick 1000000000 (fun _ => 0)).isSome = true := by decide!
  have h2 : (((⟨⟨0, 0, 0⟩, 100, [⟨⟨1, 0, 0⟩, ⟨0, 0, 0⟩⟩], 5, by decide⟩ :
      particleEmitter ℚ).MoveTo ⟨7, 7, 7⟩).Tick 1000000000 (fun _ => 0)).isSome = true := by
    decide!
  obtain ⟨a, ha⟩ := Option.isSome_iff_exists.mp h1
  obtain ⟨b, hb⟩ := Option.isSome_iff_exists.mp h2
  obtain ⟨k, _, hpa, hpb, _, hv⟩ :=
    (MoveTo_Tick _ ⟨7, 7, 7⟩ 1000000000 (fun _ => 0)).2.2.2.2.2 a b ha hb
  refine ⟨a, b, ha, hb, ?_⟩
  rw [hpa, hpb]
  simp [length_spawned]

/-- C20, as stated, fails: with the identity rotation (`mgl.QuatIdent()`, which rotates every
vector to itself), the camera at the origin and `delta = (0, 0, 1)`, `Move` leaves the camera
at `(0, 0, 1)`, while `position + 0 x right + 0 x up + 1 x Center()` is `(0, 0, -1)`. -/
theorem QuatCamera_Move_counterexample :
    (QuatCamera.Move (fun (_ : Unit) (v : Vec3 ℤ) => v)
        (⟨(), ⟨0, 0, 0⟩, ()⟩ : QuatCamera ℤ Unit Unit) ⟨0, 0, 1⟩).position = ⟨0, 0, 1⟩ ∧
    (((⟨0, 0, 0⟩ : Vec3 ℤ).Add ((AxisRight : Vec3 ℤ).Mul 0)).Add
        ((QuatCamera.Up (fun (_ : Unit) (v : Vec3 ℤ) => v)
          (⟨(), ⟨0, 0, 0⟩, ()⟩ : QuatCamera ℤ Unit Unit)).Mul 0)).Add
        ((QuatCamera.Center (fun (_ : Unit) (v : Vec3 ℤ) => v)
          (⟨(), ⟨0, 0, 0⟩, ()⟩ : QuatCamera ℤ Unit Unit)).Mul 1) = ⟨0, 0, -1⟩ ∧
    (⟨0, 0, 1⟩ : Vec3 ℤ) ≠ ⟨0, 0, -1⟩ := by
  refine ⟨?_, ?_, ?_⟩
  · simp [QuatCamera.Move, Vec3.Add]
  · simp [QuatCamera.Up, QuatCamera.Center, Vec3.Add, Vec3.Mul, Vec3.Sub, AxisRight, AxisUp,
      AxisFront]
  · simp

/-- C20, amended: where `Quat.Rotate` is linear (exact arithmetic), `QuatCamera.Move(delta)`
translates the position to
`position + delta[0] x right + delta[1] x up - delta[2] x Center()`, with
`right = rotation.Rotate(AxisRight)`, `up = Up()` and `Center()` the direction `View` looks
along (`View` looks from `position` at `position + Center()`): the third local axis is the
backward axis `rotation.Rotate(AxisFront)`. The rotation and the projection are unchanged. -/
theorem QuatCamera_Move_axes {K Q P : Type} [Ring K] (rotate : Q → Vec3 K → Vec3 K)
    (hadd : ∀ q u v, rotate q (u.Add v) = (rotate q u).Add (rotate q v))
    (hmul : ∀ q v k, rotate q (v.Mul k) = (rotate q v).Mul k)
    (c : QuatCamera K Q P) (delta : Vec3 K) :
    (c.Move rotate delta).position
        = c.position.Add ((((rotate c.rotation AxisRight).Mul delta.x).Add
            ((c.Up rotate).Mul delta.y)).Add ((c.Center rotate).Mul (-delta.z))) ∧
      (c.Move rotate delta).position
        = c.position.Add ((((rotate c.rotation AxisRight).Mul delta.x).Add
            ((c.Up rotate).Mul delta.y)).Add ((rotate c.rotation AxisFront).Mul delta.z)) ∧
      (c.Move rotate delta).rotation = c.rotation ∧
      (c.Move rotate delta).projection = c.projection ∧
      (c.viewArgs rotate).1 = c.position ∧
      (c.viewArgs rotate).2.1 = c.position.Add (c.Center rotate) := by
  have h2 : (c.Move rotate delta).position
      = c.position.Add ((((rotate c.rotation AxisRight).Mul delta.x).Add
          ((c.Up rotate).Mul delta.y)).Add ((rotate c.rotation AxisFront).Mul delta.z)) := by
    unfold QuatCamera.Move QuatCamera.Up
    simp only
    rw [rotate_delta rotate hadd hmul]
  refine ⟨?_, h2, rfl, rfl, rfl, rfl⟩
  rw [h2]
  unfold QuatCamera.Center
  simp only
  rw [rotate_axisBack rotate hmul]
  congr 2
  apply Vec3_eq <;> simp [Vec3.Mul, mul_assoc]

/-- Witness of C20 amended: the quarter turn about the `Y` axis, `(x, y, z) -> (z, y, -x)`,
over the integers, with the camera at `(1, 1, 1)` and `delta = (2, 3, 5)`. -/
theorem QuatCamera_Move_axes_witness :
    (QuatCamera.Move (fun (_ : Unit) (v : Vec3 ℤ) => (⟨v.z, v.y, -v.x⟩ : Vec3 ℤ))
        (⟨(), ⟨1, 1, 1⟩, ()⟩ : QuatCamera ℤ Unit Unit) ⟨2, 3, 5⟩).position = ⟨6, 4, -1⟩ :=
  (QuatCamera_Move_axes (fun (_ : Unit) (v : Vec3 ℤ) => (⟨v.z, v.y, -v.x⟩ : Vec3 ℤ))
    (by intro q u v; simp [Vec3.Add]; ring)
    (by intro q v k; simp [Vec3.Mul])
    (⟨(), ⟨1, 1, 1⟩, ()⟩ : QuatCamera ℤ Unit Unit) ⟨2, 3, 5⟩).1.trans
    (by simp [QuatCamera.Up, QuatCamera.Center, Vec3.Add, Vec3.Mul, Vec3.Sub, AxisRight, AxisUp,
      AxisFront])

/-- C21: for every pair of points `a` and `b`, `Quad(a, b)` returns exactly 18 values, the 6
vertices of the triangles `(b, (a.x, b.y, a.z), a)` and `(a, b, (b.x, a.y, b.z))`, which share
`a` and `b`; for `a = (0, 0, 0)` and `b = (1, 1, 0)` the set of vertices is exactly the four
corners `(0, 0, 0)`, `(1, 0, 0)`, `(1, 1, 0)`, `(0, 1, 0)` of the unit square in the XY
plane. -/
theorem Quad_vertices :
    (∀ (F : Type) (a b : Vec3 F), (Quad a b).length = 18 ∧
      vertexList (Quad a b)
        = [b, ⟨a.x, b.y, a.z⟩, a, a, b, ⟨b.x, a.y, b.z⟩]) ∧
    (vertexList (Quad (⟨0, 0, 0⟩ : Vec3 ℚ) ⟨1, 1, 0⟩)).length = 6 ∧
    (∀ v : Vec3 ℚ, v ∈ vertexList (Quad (⟨0, 0, 0⟩ : Vec3 ℚ) ⟨1, 1, 0⟩) ↔
      v ∈ [(⟨0, 0, 0⟩ : Vec3 ℚ), ⟨1, 0, 0⟩, ⟨1, 1, 0⟩, ⟨0, 1, 0⟩]) := by
  refine ⟨fun F a b => ⟨rfl, rfl⟩, rfl, ?_⟩
  intro v
  simp only [Quad, vertexList, List.mem_cons, List.mem_singleton, List.not_mem_nil, or_false]
  constructor
  · rintro (h | h | h | h | h | h) <;> simp [h]
  · rintro (h | h | h | h) <;> simp [h]

/-- C22, as stated, fails: an empty emitter of capacity 5 with the rate `-2^64`; for a tick of
one second with the draw `1/2` the spawn count is `n = int(-2^63) = -2^63`, so `n + 1 > num`
does not hold, but the eviction count `0 + 1 + n - 5` wraps to `2^63 - 4`, the slice expression
is out of range and the tick does not complete. -/
theorem Tick_total_counterexample :
    (⟨⟨0, 0, 0⟩, -18446744073709551616, [], 5, by decide⟩ : particleEmitter ℚ).spawnCount
        1000000000 (1 / 2) = -9223372036854775808 ∧
    wrapInt ((0 : Int) + 1 + -9223372036854775808 - 5) = 9223372036854775804 ∧
    ¬ ((-9223372036854775808 : Int) + 1 > 5) ∧
    ((⟨⟨0, 0, 0⟩, -18446744073709551616, [], 5, by decide⟩ : particleEmitter ℚ).Tick
        1000000000 (fun _ => 1 / 2)).isNone = true := by
  decide!

/-- C22, amended: for every emitter state with `Len() <= num` and every spawn count
`n = int(rate * seconds * r)` for which the eviction count `Len() + 1 + n - num` fits a 64-bit
`int` (as it does for every `n >= 0` but `n = 2^63 - 1` with `Len() = num`), `Tick` does not
complete exactly when `n + 1 > num`: the eviction count then exceeds the number of live
particles and the slice expression `particles[extra:]` is out of range. In every other case
`Tick` completes. -/
theorem Tick_aborts_iff {F : Type} [Float32Ops F] (e : particleEmitter F) (interval : Int)
    (rand : Nat → F) (hlen : (e.Len : Int) ≤ e.num)
    (hlo : -(2 ^ 63) ≤ (e.Len : Int) + 1 + e.spawnCount interval (rand 0) - e.num)
    (hhi : (e.Len : Int) + 1 + e.spawnCount interval (rand 0) - e.num < 2 ^ 63) :
    (e.Tick interval rand = none ↔ e.spawnCount interval (rand 0) + 1 > e.num) ∧
    (e.spawnCount interval (rand 0) + 1 > e.num →
      wrapInt ((e.particles.length : Int) + 1 + e.spawnCount interval (rand 0) - e.num)
        = (e.Len : Int) + 1 + e.spawnCount interval (rand 0) - e.num ∧
      (e.Len : Int) + 1 + e.spawnCount interval (rand 0) - e.num > (e.Len : Int)) ∧
    (e.spawnCount interval (rand 0) + 1 ≤ e.num → ∃ e1, e.Tick interval rand = some e1) := by
  have hr := e.num_range
  have hw : wrapInt ((e.particles.length : Int) + 1 + e.spawnCount interval (rand 0) - e.num)
      = (e.Len : Int) + 1 + e.spawnCount interval (rand 0) - e.num := by
    unfold particleEmitter.Len at hlo hhi ⊢
    unfold wrapInt
    omega
  have hsome : e.spawnCount interval (rand 0) + 1 ≤ e.num →
      ∃ e1, e.Tick interval rand = some e1 := by
    intro hle
    apply Tick_isSome e interval rand
    · rw [hw]
      unfold particleEmitter.Len
      omega
    · rw [hw]
      unfold particleEmitter.Len at hlen ⊢
      omega
  have hnone : e.spawnCount interval (rand 0) + 1 > e.num → e.Tick interval rand = none := by
    intro hgt
    cases hT : e.Tick interval rand with
    | none => rfl
    | some e1 =>
      obtain ⟨k, hk, hkx, _⟩ := Tick_eq_some e e1 interval rand hT
      rw [hw] at hkx
      unfold particleEmitter.Len at hkx
      omega
  refine ⟨⟨fun h => ?_, hnone⟩, fun hgt => ⟨hw, by omega⟩, hsome⟩
  by_contra hle
  obtain ⟨e1, h1⟩ := hsome (by omega)
  rw [h1] at h
  simp at h

/-- Witness of C22 amended: capacity 5, rate 100, no particles; a tick of one second with the
draw `1/2` has `n = 50` and does not complete. -/
theorem Tick_aborts_iff_witness :
    (⟨⟨0, 0, 0⟩, 100, [], 5, by decide⟩ : particleEmitter ℚ).Tick 1000000000 (fun _ => 1 / 2)
      = none :=
  (Tick_aborts_iff (⟨⟨0, 0, 0⟩, 100, [], 5, by decide⟩ : particleEmitter ℚ) 1000000000
    (fun _ => 1 / 2) (by decide) (by decide!) (by decide!)).1.mpr (by decide!)

end Gameblocks
